import Mathlib

/-!
Verification development for the tiddlykeep repository: a shallow embedding of
the tiddler data model, the JSON/text codec, the tag reconciliation logic, the
permanode reference resolver, the put/get/list store operations and the HTTP
ETag handler, together with theorems settling the frozen specification claims.

The external content-addressed store (perkeep) is an external collaborator; its
contract (content-addressed blob upload, claim append, attribute query/describe)
is modelled explicitly as a small state machine, following the contract stated
in the specification (section 6).
-/

set_option maxHeartbeats 1000000

instance instDecEqExcept {ε α : Type} [DecidableEq ε] [DecidableEq α] :
    DecidableEq (Except ε α) := fun a b =>
  match a, b with
  | .ok x, .ok y => if h : x = y then .isTrue (by rw [h]) else .isFalse (by simp [h])
  | .error x, .error y => if h : x = y then .isTrue (by rw [h]) else .isFalse (by simp [h])
  | .ok _, .error _ => .isFalse (by simp)
  | .error _, .ok _ => .isFalse (by simp)

/-! ## Character-level string primitives

Models of the Go `strings` helpers the repository uses, implemented by
structural recursion over character lists (so that concrete runs reduce inside
the kernel). -/

def isPre : List Char → List Char → Bool
  | [], _ => true
  | _ :: _, [] => false
  | p :: ps, c :: cs => p = c && isPre ps cs

/-- Model of Go `strings.HasPrefix`. -/
def goStartsWith (s p : String) : Bool := isPre p.data s.data

/-- Model of Go `strings.HasSuffix`. -/
def goEndsWith (s p : String) : Bool := isPre p.data.reverse s.data.reverse

/-- Model of Go `strings.TrimPrefix`. -/
def goTrimPre (s p : String) : String :=
  if goStartsWith s p then String.mk (s.data.drop p.data.length) else s

/-- Model of Go `strings.TrimSuffix`. -/
def goTrimSuf (s p : String) : String :=
  if goEndsWith s p then String.mk ((s.data.reverse.drop p.data.length).reverse) else s

def goSpace (c : Char) : Bool :=
  c = ' ' || c = '\t' || c = '\n' || c = '\x0b' || c = '\x0c' || c = '\r'

def trimChars (l : List Char) : List Char :=
  ((l.dropWhile goSpace).reverse.dropWhile goSpace).reverse

/-- Model of Go `strings.TrimSpace` (ASCII white space). -/
def goTrim (s : String) : String := String.mk (trimChars s.data)

/-- Split at every occurrence of a separator character (Go `strings.Split`
with a one-character separator). -/
def splitOnChar (sep : Char) : List Char → List (List Char)
  | [] => [[]]
  | c :: rest =>
    if c = sep then [] :: splitOnChar sep rest
    else
      match splitOnChar sep rest with
      | [] => [[c]]
      | l :: ls => (c :: l) :: ls

def goSplitChar (s : String) (sep : Char) : List String :=
  (splitOnChar sep s.data).map String.mk

/-- Break a character list at the first occurrence of a separator. -/
def breakOnSep (sep : List Char) : List Char → Option (List Char × List Char)
  | [] => none
  | c :: rest =>
    if isPre sep (c :: rest) then some ([], (c :: rest).drop sep.length)
    else (breakOnSep sep rest).map (fun p => (c :: p.1, p.2))

def goJoinSpace (l : List String) : String :=
  String.mk (List.intercalate [' '] (l.map String.data))

def joinNl (l : List String) : String :=
  String.mk (List.intercalate ['\n'] (l.map String.data))

/-! ## JSON value model

Go's codec works on `map[string]interface{}` values produced by
`encoding/json`.  Following the specification's data model (section 9: field
values are scalars or arrays of scalars), JSON values are modelled as a
two-layer tagged variant: atoms, arrays of atoms, flat objects of atoms, plus
Go's `[]string` (which the repository's own code stores into the map before
marshalling, and which the JSON wire flattens into a plain array). -/

inductive JAtom where
  | str (s : String)
  | num (n : Int)
  | bool (b : Bool)
  | null
deriving DecidableEq

inductive JValue where
  | atom (a : JAtom)
  | strs (l : List String)
  | arr (l : List JAtom)
  | obj (m : List (String × JAtom))
deriving DecidableEq

/-- Association-list model of a Go `map[string]interface{}` (keys unique). -/
abbrev JObj := List (String × JValue)

def JObj.lookup : JObj → String → Option JValue
  | [], _ => none
  | (k, v) :: rest, f => if k = f then some v else JObj.lookup rest f

/-- Map store `obj[f] = v`: replace the value in place if the key is present,
otherwise add the binding. -/
def JObj.insert : JObj → String → JValue → JObj
  | [], f, v => [(f, v)]
  | (k, w) :: rest, f, v =>
      if k = f then (k, v) :: rest else (k, w) :: JObj.insert rest f v

/-- Map `delete(obj, f)`. -/
def JObj.erase : JObj → String → JObj
  | [], _ => []
  | (k, w) :: rest, f =>
      if k = f then JObj.erase rest f else (k, w) :: JObj.erase rest f

def JObj.keys (o : JObj) : List String := o.map (·.1)

/-- Canonicalisation performed by a marshal/unmarshal round trip through JSON
bytes: a Go `[]string` value marshals to a JSON array, which unmarshals back as
`[]interface{}` (an array of atoms).  All other modelled values are stable. -/
def JValue.wire : JValue → JValue
  | .strs l => .arr (l.map JAtom.str)
  | v => v

def JObj.wire (o : JObj) : JObj := o.map (fun p => (p.1, p.2.wire))

/-! ## Time model

Go `time.Time` values are modelled by their RFC3339 rendering (the only
observations the repository makes of a time are `MarshalText`, parsing with
`time.Parse(time.RFC3339, ...)`, `Unix()` and equality).  The model covers UTC
whole-second times, rendered `YYYY-MM-DDTHH:MM:SSZ`. -/

structure GoTime where
  rep : String
deriving DecidableEq

/-- Rendering of the Go zero time. -/
def GoTime.zero : GoTime := ⟨"0001-01-01T00:00:00Z"⟩

def digitVal (c : Char) : Nat := c.toNat - 48

def twoDig (a b : Char) : Nat := digitVal a * 10 + digitVal b

def fourDig (a b c d : Char) : Nat :=
  ((digitVal a * 10 + digitVal b) * 10 + digitVal c) * 10 + digitVal d

/-- Strict RFC3339 well-formedness check for the modelled (UTC whole-second)
rendering: exact separators, digit positions and basic field ranges.  Per-month
day-count validation is abstracted to the range 1..31. -/
def validRFC3339 (s : String) : Bool :=
  match s.data with
  | [y1, y2, y3, y4, h1, m1, m2, h2, d1, d2, t1, hh1, hh2, c1, mi1, mi2, c2, s1, s2, z1] =>
      y1.isDigit && y2.isDigit && y3.isDigit && y4.isDigit &&
      h1 = '-' && m1.isDigit && m2.isDigit && h2 = '-' &&
      d1.isDigit && d2.isDigit && t1 = 'T' &&
      hh1.isDigit && hh2.isDigit && c1 = ':' &&
      mi1.isDigit && mi2.isDigit && c2 = ':' &&
      s1.isDigit && s2.isDigit && z1 = 'Z' &&
      1 ≤ twoDig m1 m2 && twoDig m1 m2 ≤ 12 &&
      1 ≤ twoDig d1 d2 && twoDig d1 d2 ≤ 31 &&
      twoDig hh1 hh2 ≤ 23 && twoDig mi1 mi2 ≤ 59 && twoDig s1 s2 ≤ 59
  | _ => false

/-- Model of `time.Parse(time.RFC3339, s)`: succeeds exactly on well-formed
renderings, returning the time they denote. -/
def goTimeParse (s : String) : Option GoTime :=
  if validRFC3339 s then some ⟨s⟩ else none

/-- Model of `time.Time.MarshalText` (RFC3339 rendering). -/
def GoTime.marshalText (t : GoTime) : String := t.rep

def leapYear (y : Nat) : Bool := y % 4 = 0 && (y % 100 != 0 || y % 400 = 0)

/-- Cumulative day count before the start of month `m` in a non-leap year. -/
def daysBeforeMonth (m : Nat) : Nat :=
  [0, 0, 31, 59, 90, 120, 151, 181, 212, 243, 273, 304, 334].getD m 0

/-- Number of days from 0001-01-01 to the given civil date. -/
def daysSinceEpoch1 (y m d : Nat) : Nat :=
  365 * (y - 1) + (y - 1) / 4 - (y - 1) / 100 + (y - 1) / 400 +
    daysBeforeMonth m + (if 2 < m && leapYear y then 1 else 0) + (d - 1)

/-- Model of Go `time.Time.Unix()`: seconds since 1970-01-01T00:00:00Z
(62135596800 seconds after 0001-01-01T00:00:00Z). -/
def GoTime.unix (t : GoTime) : Int :=
  match t.rep.data with
  | [y1, y2, y3, y4, _, m1, m2, _, d1, d2, _, hh1, hh2, _, mi1, mi2, _, s1, s2, _] =>
      (daysSinceEpoch1 (fourDig y1 y2 y3 y4) (twoDig m1 m2) (twoDig d1 d2) * 86400 +
        twoDig hh1 hh2 * 3600 + twoDig mi1 mi2 * 60 + twoDig s1 s2 : Int) - 62135596800
  | _ => 0

/-! ## Blob references

Storage handles (perkeep `blob.Ref`) are opaque; following the specification's
contract they are modelled as strings, the zero handle being the empty string
(empty/zero handles render empty and are omitted from encodings). -/

structure BlobRef where
  val : String
deriving DecidableEq

def BlobRef.zero : BlobRef := ⟨""⟩

/-- Model of `blob.Ref.Valid()`: the zero handle is invalid. -/
def BlobRef.Valid (r : BlobRef) : Bool := r.val != ""

/-- Modelled from the spec: `blob.Ref.String()` for an opaque handle is its
string form; the zero handle renders empty ("empty/zero values are omitted"). -/
def BlobRef.str (r : BlobRef) : String := r.val

/-- Model of `blob.ParseOrZero`: the empty string parses to the zero handle. -/
def BlobRef.parseOrZero (s : String) : BlobRef := ⟨s⟩

/-! ## Tiddler data model (part_000 lines 33-44, 99-103, 253-264) -/

structure TiddlerRef where
  Ref : BlobRef := BlobRef.zero
  TextRef : BlobRef := BlobRef.zero
  MetaRef : BlobRef := BlobRef.zero
  Title : String := ""
  Bag : String := ""
  Recipe : String := ""
  Tags : List String := []
  Revision : GoTime := GoTime.zero
deriving DecidableEq

structure TiddlerMeta extends TiddlerRef where
  Fields : JObj := []
  Type' : String := ""
  Permissions : String := ""
  Created : String := ""
  Creator : String := ""
  Modified : String := ""
  Modifier : String := ""
deriving DecidableEq

structure Tiddler extends TiddlerMeta where
  Text : String := ""
deriving DecidableEq

def Tiddler.empty : Tiddler := {}

/-! ## Codec: JSON encoding (part_000 lines 105-147) -/

def JAtom.goStr : JAtom → String
  | .str s => s
  | .num n => "%!s(float64=" ++ toString n ++ ")"
  | .bool b => "%!s(bool=" ++ (if b then "true" else "false") ++ ")"
  | .null => "%!s(<nil>)"

/-- Model of the source's `toString` helper: strings pass through, any other
value is rendered with `fmt`'s `%s` verb. -/
def JValue.goString : JValue → String
  | .atom a => a.goStr
  | .strs l => "[" ++ goJoinSpace l ++ "]"
  | .arr l => "[" ++ goJoinSpace (l.map JAtom.goStr) ++ "]"
  | .obj m => "map[" ++ goJoinSpace (m.map (fun p => p.1 ++ ":" ++ p.2.goStr)) ++ "]"

def addIfNonEmpty (obj : JObj) (field val : String) : JObj :=
  if val ≠ "" then obj.insert field (.atom (.str val)) else obj

/-- Model of `Tiddler.ToJSONObject`.  The Go version can only fail through
`Revision.MarshalText`, which never fails for a representable time, so the
model is total. -/
def Tiddler.ToJSONObject (t : Tiddler) : JObj :=
  let obj := t.Fields
  let obj := obj.insert "title" (.atom (.str t.Title))
  let obj := obj.insert "revision" (.atom (.str t.Revision.marshalText))
  let obj := addIfNonEmpty obj "tiddlykeep-ref" t.Ref.str
  let obj := addIfNonEmpty obj "bag" t.Bag
  let obj := addIfNonEmpty obj "recipe" t.Recipe
  let obj := addIfNonEmpty obj "type" t.Type'
  let obj := addIfNonEmpty obj "text" t.Text
  let obj := addIfNonEmpty obj "permissions" t.Permissions
  let obj := addIfNonEmpty obj "created" t.Created
  let obj := addIfNonEmpty obj "creator" t.Creator
  let obj := addIfNonEmpty obj "modified" t.Modified
  let obj := addIfNonEmpty obj "modifier" t.Modifier
  if t.Tags ≠ [] then obj.insert "tags" (.strs t.Tags) else obj

/-! ## Codec: decoding (part_000 lines 46-97, 230-251) -/

/-- One iteration of the `for f, v := range tiddlerMeta` loop in
`TiddlerMeta.MergeFrom`. -/
def mergeStep (t : TiddlerMeta) (kv : String × JValue) : TiddlerMeta :=
  match kv.1 with
  | "title" => { t with Title := kv.2.goString }
  | "revision" =>
      match goTimeParse kv.2.goString with
      | some rev => { t with Revision := rev }
      | none => t
  | "tags" =>
      match kv.2 with
      | .strs tags => { t with Tags := tags }
      | .arr tags => { t with Tags := tags.map JAtom.goStr }
      | _ => t
  | "type" => { t with Type' := kv.2.goString }
  | "bag" => { t with Bag := kv.2.goString }
  | "recipe" => { t with Recipe := kv.2.goString }
  | "permissions" => { t with Permissions := kv.2.goString }
  | "creator" => { t with Creator := kv.2.goString }
  | "created" => { t with Created := kv.2.goString }
  | "modifier" => { t with Modifier := kv.2.goString }
  | "modified" => { t with Modified := kv.2.goString }
  | "text" => t
  | "fields" => t
  | f => { t with Fields := t.Fields.insert f kv.2 }

/-- Model of `TiddlerMeta.MergeFrom`.  The Go code first takes `Fields` from a
`"fields"` entry holding a map (else a fresh empty map), then folds the map's
entries through the switch; map iteration order is immaterial because distinct
keys update distinct slots. -/
def TiddlerMeta.MergeFrom (t : TiddlerMeta) (m : JObj) : TiddlerMeta :=
  let t0 := { t with
    Fields := match m.lookup "fields" with
      | some (.obj fs) => fs.map (fun p => (p.1, JValue.atom p.2))
      | _ => [] }
  m.foldl mergeStep t0

/-- Model of `Tiddler.MergeFrom`. -/
def Tiddler.MergeFrom (t : Tiddler) (m : JObj) : Tiddler :=
  let tm := t.toTiddlerMeta.MergeFrom m
  match m.lookup "text" with
  | some v => { toTiddlerMeta := tm, Text := v.goString }
  | none => { toTiddlerMeta := tm, Text := t.Text }

/-! ## Error taxonomy

The Go code returns `error` values built with `errors.New`/`fmt.Errorf`; each
distinct error site is modelled by a constructor.  The specification's
taxonomy groups them via the predicates below. -/

inductive KeepError where
  | missingTitle
  | missingBagRecipe (title : String)
  | recipeNotSupported (recipe : String)
  | unsupportedRecipe (recipe : String)
  | notFound (title : String)
  | tiddlerNotFound
  | settingAttr (attr : String)
  | storeError
  | malformedJSON
  | malformedField (line : String)
  | lineEOF
  | base64Error
  | fetchError
deriving DecidableEq

def KeepError.isInvalidReference : KeepError → Bool
  | .missingTitle => true
  | .missingBagRecipe _ => true
  | _ => false

def KeepError.isUnsupportedRecipe : KeepError → Bool
  | .recipeNotSupported _ => true
  | .unsupportedRecipe _ => true
  | _ => false

def KeepError.isNotFound : KeepError → Bool
  | .notFound _ => true
  | .tiddlerNotFound => true
  | _ => false

/-- Model of `Tiddler.UnmarshalJSON`: `json.Unmarshal` into a
`map[string]interface{}` fails unless the input bytes are a JSON object
(malformed bytes and non-object values are both structure failures); on
success the object is merged into a fresh tiddler. -/
def Tiddler.UnmarshalJSON (v : Option JObj) : Except KeepError Tiddler :=
  match v with
  | some m => .ok (Tiddler.empty.MergeFrom m)
  | none => .error .malformedJSON

/-! ## Codec: text decoding (part_000 lines 180-228) -/

/-- Model of Go `strings.SplitN(s, sep, 2)`: split at the first occurrence of
the separator, or return the whole string when absent. -/
def splitN2 (s sep : String) : List String :=
  match breakOnSep sep.data s.data with
  | some (a, b) => [String.mk a, String.mk b]
  | none => [s]

/-- One iteration of the bracket-quoting tag scanner in `Tiddler.UnmarshalText`:
state is (tags accumulated so far, current quoted span). -/
def tagStep (acc : List String × String) (t : String) : List String × String :=
  let (tags, tag) := acc
  let trimmed := goTrim t
  if tag = "" && !goStartsWith trimmed "[[" then
    (tags ++ [trimmed], tag)
  else
    let tag := tag ++ " " ++ t
    if goEndsWith trimmed "]]" then
      (tags ++ [goTrimSuf (goTrimPre (goTrim tag) "[[") "]]"], "")
    else
      (tags, tag)

/-- The `tags` header parser of `Tiddler.UnmarshalText`: scan space-separated
tokens, accumulating bracket-quoted spans until a closing `]]`. -/
def parseTagsHeader (v : String) : List String :=
  let split := goSplitChar v ' '
  let (tags, tag) := split.foldl tagStep ([], "")
  if tag ≠ "" then tags ++ [goTrimPre (goTrim tag) "[["] else tags

/-- A header line ending in `"\r"` had a `"\r\n"` terminator; `bufio.ReadLine`
strips it. -/
def stripCR (s : String) : String :=
  if goEndsWith s "\r" then String.mk s.data.dropLast else s

/-- The header-reading loop of `Tiddler.UnmarshalText` over the input split at
newlines: read `field: value` lines until a blank line, then the remainder is
the body; reading past the end of input is an EOF error (the Go code returns
`ReadLine`'s `io.EOF`).  The last element of `splitOn "\n"` is the final,
newline-unterminated segment: when it is reached and empty there is no more
data, which is exactly the EOF case. -/
def textHeaderLoop (obj : JObj) : List String → Except KeepError (JObj × String)
  | [] => .error .lineEOF
  | [lastSeg] =>
      if lastSeg = "" then .error .lineEOF
      else
        match splitN2 lastSeg ": " with
        | [_, _] => .error .lineEOF
        | _ => .error (.malformedField lastSeg)
  | line :: rest =>
      let l := stripCR line
      if l = "" then .ok (obj, joinNl rest)
      else
        match splitN2 l ": " with
        | [f, v] =>
            if f = "tags" then
              textHeaderLoop (obj.insert "tags" (.strs (parseTagsHeader v))) rest
            else
              textHeaderLoop (obj.insert f (.atom (.str v))) rest
        | _ => .error (.malformedField l)

/-- Model of `Tiddler.UnmarshalText`: parse header lines into an object, set
its `"text"` entry to the body after the first blank line, and merge into a
fresh tiddler. -/
def Tiddler.UnmarshalText (data : String) : Except KeepError Tiddler :=
  match textHeaderLoop [] (goSplitChar data '\n') with
  | .error e => .error e
  | .ok (obj, body) =>
      .ok (Tiddler.empty.MergeFrom (obj.insert "text" (.atom (.str body))))

/-! ## Byte-level helpers

Bodies are byte sequences (`[]byte`), modelled as `List Nat`.  UTF-8 and
base64 conversions are implemented directly. -/

def utf8Bytes (c : Char) : List Nat :=
  let n := c.toNat
  if n < 0x80 then [n]
  else if n < 0x800 then [0xC0 + n / 0x40, 0x80 + n % 0x40]
  else if n < 0x10000 then
    [0xE0 + n / 0x1000, 0x80 + n / 0x40 % 0x40, 0x80 + n % 0x40]
  else
    [0xF0 + n / 0x40000, 0x80 + n / 0x1000 % 0x40, 0x80 + n / 0x40 % 0x40, 0x80 + n % 0x40]

/-- Model of Go `[]byte(s)`: the UTF-8 bytes of a string. -/
def strBytes (s : String) : List Nat :=
  s.data.foldr (fun c acc => utf8Bytes c ++ acc) []

def contByte (b : Nat) : Bool := 0x80 ≤ b && b < 0xC0

/-- Decoding loop for `utf8Decode`, structurally recursive on a fuel bounded
below by the number of bytes (every step consumes at least one byte). -/
def utf8DecodeAux : Nat → List Nat → List Char
  | 0, _ => []
  | _ + 1, [] => []
  | fuel + 1, b :: rest =>
    if b < 0x80 then Char.ofNat b :: utf8DecodeAux fuel rest
    else if b < 0xC0 then Char.ofNat 0xFFFD :: utf8DecodeAux fuel rest
    else if b < 0xE0 then
      match rest with
      | b2 :: rest2 =>
          if contByte b2 then
            Char.ofNat ((b - 0xC0) * 0x40 + (b2 - 0x80)) :: utf8DecodeAux fuel rest2
          else Char.ofNat 0xFFFD :: utf8DecodeAux fuel (b2 :: rest2)
      | [] => [Char.ofNat 0xFFFD]
    else if b < 0xF0 then
      match rest with
      | b2 :: b3 :: rest3 =>
          if contByte b2 && contByte b3 then
            Char.ofNat ((b - 0xE0) * 0x1000 + (b2 - 0x80) * 0x40 + (b3 - 0x80)) ::
              utf8DecodeAux fuel rest3
          else Char.ofNat 0xFFFD :: utf8DecodeAux fuel rest
      | _ => [Char.ofNat 0xFFFD]
    else
      match rest with
      | b2 :: b3 :: b4 :: rest4 =>
          if contByte b2 && contByte b3 && contByte b4 then
            Char.ofNat
                ((b - 0xF0) * 0x40000 + (b2 - 0x80) * 0x1000 + (b3 - 0x80) * 0x40 + (b4 - 0x80)) ::
              utf8DecodeAux fuel rest4
          else Char.ofNat 0xFFFD :: utf8DecodeAux fuel rest
      | _ => [Char.ofNat 0xFFFD]

/-- Model of Go `string(data)` for `[]byte` data: decode UTF-8, replacing
invalid sequences with U+FFFD (as iterating such a Go string yields). -/
def utf8Decode (l : List Nat) : List Char := utf8DecodeAux l.length l

def b64Val (c : Char) : Option Nat :=
  if 'A' ≤ c && c ≤ 'Z' then some (c.toNat - 65)
  else if 'a' ≤ c && c ≤ 'z' then some (c.toNat - 71)
  else if '0' ≤ c && c ≤ '9' then some (c.toNat + 4)
  else if c = '+' then some 62
  else if c = '/' then some 63
  else none

def b64Char (n : Nat) : Char :=
  "ABCDEFGHIJKLMNOPQRSTUVWXYZabcdefghijklmnopqrstuvwxyz0123456789+/".data.getD n 'A'

/-- Model of Go `base64.StdEncoding.EncodeToString`. -/
def base64Encode : List Nat → List Char
  | [] => []
  | [a] => [b64Char (a / 4), b64Char (a % 4 * 16), '=', '=']
  | [a, b] => [b64Char (a / 4), b64Char (a % 4 * 16 + b / 16), b64Char (b % 16 * 4), '=']
  | a :: b :: c :: rest =>
      b64Char (a / 4) :: b64Char (a % 4 * 16 + b / 16) ::
        b64Char (b % 16 * 4 + c / 64) :: b64Char (c % 64) :: base64Encode rest

/-- Model of Go `base64.StdEncoding.DecodeString` (padded standard alphabet);
`none` is a corrupt-input error. -/
def base64Decode : List Char → Option (List Nat)
  | [] => some []
  | a :: b :: c :: d :: rest =>
    match b64Val a, b64Val b with
    | some va, some vb =>
      if c = '=' && d = '=' && rest.isEmpty then
        some [va * 4 + vb / 16]
      else if d = '=' && rest.isEmpty then
        match b64Val c with
        | some vc => some [va * 4 + vb / 16, vb % 16 * 16 + vc / 4]
        | none => none
      else
        match b64Val c, b64Val d with
        | some vc, some vd =>
            (base64Decode rest).map
              (fun tl => (va * 4 + vb / 16) :: (vb % 16 * 16 + vc / 4) :: (vc % 4 * 64 + vd) :: tl)
        | _, _ => none
    | _, _ => none
  | _ => none

/-! ## Content store model

The external content-addressed store (spec section 6): mutable append-only
attribute nodes (permanodes), immutable content-addressed blobs, signed claim
append, and a constraint query/describe API.  Failure of an external call is
modelled by the per-call-kind fault flags in the state. -/

inductive ClaimOp where
  | set
  | add
  | del
  | delNode
deriving DecidableEq

structure Claim where
  node : String
  attr : String
  op : ClaimOp
  value : String
deriving DecidableEq

/-- Attribute snapshot of a permanode: the attributes the repository reads and
writes, each holding a list of values, plus the node's modification time
(perkeep `Permanode.ModTime`). -/
structure Attrs where
  title : List String := []
  tiddlerBag : List String := []
  tiddlerMeta : List String := []
  camliContent : List String := []
  tag : List String := []
  camliDefVis : List String := []
  modTime : GoTime := GoTime.zero
deriving DecidableEq

def Attrs.get (a : Attrs) : String → List String
  | "title" => a.title
  | "tiddlerBag" => a.tiddlerBag
  | "tiddlerMeta" => a.tiddlerMeta
  | "camliContent" => a.camliContent
  | "tag" => a.tag
  | "camliDefVis" => a.camliDefVis
  | _ => []

def Attrs.set (a : Attrs) (attr : String) (vs : List String) : Attrs :=
  match attr with
  | "title" => { a with title := vs }
  | "tiddlerBag" => { a with tiddlerBag := vs }
  | "tiddlerMeta" => { a with tiddlerMeta := vs }
  | "camliContent" => { a with camliContent := vs }
  | "tag" => { a with tag := vs }
  | "camliDefVis" => { a with camliDefVis := vs }
  | _ => a

/-- Content blob payloads: file-schema blobs (uploaded bodies) and raw JSON
bytes (uploaded metadata objects). -/
inductive BlobData where
  | file (bytes : List Nat)
  | jsonBytes (o : JObj)
deriving DecidableEq

def alookup {α : Type} : List (String × α) → String → Option α
  | [], _ => none
  | (k, v) :: rest, f => if k = f then some v else alookup rest f

def aset {α : Type} : List (String × α) → String → α → List (String × α)
  | [], f, v => [(f, v)]
  | (k, w) :: rest, f, v =>
      if k = f then (k, v) :: rest else (k, w) :: aset rest f v

structure StoreState where
  nodes : List (String × Attrs) := []
  blobs : List (String × BlobData) := []
  claims : List Claim := []
  nextNode : Nat := 0
  nextBlob : Nat := 0
  queryFails : Bool := false
  describeFails : Bool := false
  uploadFails : Bool := false
  signFails : Bool := false
deriving DecidableEq

/-- A state whose external store is healthy (no injected faults). -/
def StoreState.clean (s : StoreState) : Prop :=
  s.queryFails = false ∧ s.describeFails = false ∧ s.uploadFails = false ∧ s.signFails = false

def findBlobByContent : List (String × BlobData) → BlobData → Option String
  | [], _ => none
  | (h, d) :: rest, c => if d = c then some h else findBlobByContent rest c

/-- Content-addressed upload: identical bytes collapse to the existing handle,
new bytes get a fresh handle. -/
def uploadContent (s : StoreState) (data : BlobData) : BlobRef × StoreState :=
  match findBlobByContent s.blobs data with
  | some h => (⟨h⟩, s)
  | none =>
      let h := "cas-" ++ toString s.nextBlob
      (⟨h⟩, { s with blobs := s.blobs ++ [(h, data)], nextBlob := s.nextBlob + 1 })

/-- Model of `uploadBlob` (part_000 lines 462-477): raw upload of the metadata
JSON bytes, content addressed by hash. -/
def uploadBlob (s : StoreState) (o : JObj) : Except KeepError (BlobRef × StoreState) :=
  if s.uploadFails then .error .storeError
  else .ok (uploadContent s (.jsonBytes o))

/-- Model of `client.UploadFile`: wraps the bytes in a file schema blob,
content addressed. -/
def uploadFile (s : StoreState) (bytes : List Nat) : Except KeepError (BlobRef × StoreState) :=
  if s.uploadFails then .error .storeError
  else .ok (uploadContent s (.file bytes))

def fetchBlob (s : StoreState) (h : String) : Except KeepError BlobData :=
  match alookup s.blobs h with
  | some d => .ok d
  | none => .error .fetchError

/-- Effect of an applied (indexed) claim on the node attribute map; a
tombstone claim removes the node from future queries. -/
def applyClaim (s : StoreState) (c : Claim) : StoreState :=
  match c.op with
  | .delNode => { s with nodes := s.nodes.filter (fun p => p.1 ≠ c.node) }
  | _ =>
      let a := (alookup s.nodes c.node).getD {}
      let vs := a.get c.attr
      let vs' := match c.op with
        | .set => [c.value]
        | .add => vs ++ [c.value]
        | .del => vs.filter (· ≠ c.value)
        | .delNode => vs
      { s with nodes := aset s.nodes c.node (a.set c.attr vs') }

/-- Model of `client.UploadAndSignBlob` applied to a claim: append the claim
and index its effect. -/
def uploadAndSignBlob (s : StoreState) (c : Claim) : Except KeepError StoreState :=
  if s.signFails then .error .storeError
  else .ok { applyClaim s c with claims := s.claims ++ [c] }

def setAttributeClaim (node attr value : String) : Claim := ⟨node, attr, .set, value⟩

def addAttributeClaim (node attr value : String) : Claim := ⟨node, attr, .add, value⟩

def delAttributeClaim (node attr value : String) : Claim := ⟨node, attr, .del, value⟩

def deleteClaim (node : String) : Claim := ⟨node, "", .delNode, ""⟩

/-- Model of `client.UploadNewPermanode`: allocate a fresh node. -/
def uploadNewPermanode (s : StoreState) : Except KeepError (String × StoreState) :=
  if s.uploadFails then .error .storeError
  else
    let id := "perma-" ++ toString s.nextNode
    .ok (id, { s with nodes := s.nodes ++ [(id, {})], nextNode := s.nextNode + 1 })

/-- Search constraints issued by the repository: exact attribute match,
attribute existence (`NumValue ≥ 1`), string-prefix match on an attribute
value, and conjunction. -/
inductive Constraint where
  | attrEq (attr value : String)
  | attrExists (attr : String)
  | attrStarts (attr p : String)
  | and (a b : Constraint)
deriving DecidableEq

def Attrs.matches (a : Attrs) : Constraint → Bool
  | .attrEq attr v => (a.get attr).contains v
  | .attrExists attr => !(a.get attr).isEmpty
  | .attrStarts attr p => (a.get attr).any (fun s => goStartsWith s p)
  | .and c1 c2 => a.matches c1 && a.matches c2

/-- Model of `client.Query` with a describe request: matching nodes in store
order, each with its attribute snapshot. -/
def query (s : StoreState) (c : Constraint) : Except KeepError (List (String × Attrs)) :=
  if s.queryFails then .error .storeError
  else .ok (s.nodes.filter (fun p => p.2.matches c))

/-- Model of `client.Describe` of one node. -/
def describe (s : StoreState) (ref : String) : Except KeepError (Option Attrs) :=
  if s.describeFails then .error .storeError
  else .ok (alookup s.nodes ref)

/-- Model of `TiddlyKeep.searchTiddlers` (part_000 lines 795-817). -/
def searchTiddlers (s : StoreState) (c : Constraint) (includeMissingMeta : Bool) :
    Except KeepError (List (String × Attrs)) :=
  let c := if !includeMissingMeta then .and (.attrExists "tiddlerMeta") c else c
  query s c

/-! ## Reference resolution (part_000 lines 287-296, 378-460, 509-529, 709-720) -/

/-- Configuration of the store front end (`TiddlyKeep` struct; the perkeep
client and cached index handle live in the store state / are not needed by the
modelled operations). -/
structure TiddlyKeep where
  HideTiddlers : String := ""
  EmbedTiddlers : String := ""
deriving DecidableEq

/-- The source constant `systemTiddlerPrefix`. -/
def systemTiddlerMarker : String := "$:/"

def getFirst : List String → String
  | [] => ""
  | s :: _ => s

/-- Model of `constructTiddlerRef` (part_000 lines 709-720). -/
def constructTiddlerRef (ref : String) (d : Option Attrs) : TiddlerRef :=
  match d with
  | none => { Ref := ⟨ref⟩ }
  | some a =>
      { Ref := ⟨ref⟩
        Revision := a.modTime
        Title := getFirst (a.get "title")
        Bag := getFirst (a.get "tiddlerBag")
        MetaRef := BlobRef.parseOrZero (getFirst (a.get "tiddlerMeta"))
        TextRef := BlobRef.parseOrZero (getFirst (a.get "camliContent"))
        Tags := a.get "tag" }

/-- The bag/recipe constraint construction of `getTiddlerPermanode`
(part_000 lines 396-416). -/
def bagConstraintOf (r : TiddlerRef) : Except KeepError Constraint :=
  if r.Bag ≠ "" then .ok (.attrEq "tiddlerBag" r.Bag)
  else
    match r.Recipe with
    | "all" => .ok (.attrExists "tiddlerBag")
    | "system" => .ok (.attrExists "tiddlerBag")
    | _ => .error (.recipeNotSupported r.Recipe)

/-- The node-creation tail of `getTiddlerPermanode` (part_000 lines 437-459):
allocate a permanode, stamp `title` and `tiddlerBag` (bag defaulted to
`"default"`), and optionally hide it from default visibility. -/
def createTiddlerPermanode (k : TiddlyKeep) (s : StoreState) (r : TiddlerRef) :
    Except KeepError (String × Option Attrs × StoreState) :=
  let bag := if r.Bag = "" then "default" else r.Bag
  match uploadNewPermanode s with
  | .error e => .error e
  | .ok (id, s) =>
    match uploadAndSignBlob s (setAttributeClaim id "title" r.Title) with
    | .error _ => .error (.settingAttr "title")
    | .ok s =>
      match uploadAndSignBlob s (setAttributeClaim id "tiddlerBag" bag) with
      | .error _ => .error (.settingAttr "tiddlerBag")
      | .ok s =>
        if (k.HideTiddlers = "system" && goStartsWith r.Title systemTiddlerMarker) ||
            k.HideTiddlers = "all" then
          match uploadAndSignBlob s (setAttributeClaim id "camliDefVis" "hide") with
          | .error _ => .error (.settingAttr "camliDefVis")
          | .ok s => .ok (id, none, s)
        else .ok (id, none, s)

/-- Model of `TiddlyKeep.getTiddlerPermanode` (part_000 lines 378-460).  Note
the faithful translation of `if err == nil && len(res.Blobs) != 0 { ... } else
if !createMissing { ... }`: a failed search is handled exactly like an empty
result. -/
def getTiddlerPermanode (k : TiddlyKeep) (s : StoreState) (r : TiddlerRef)
    (createMissing : Bool) : Except KeepError (String × Option Attrs × StoreState) :=
  if r.Ref.Valid then
    match describe s r.Ref.val with
    | .error e => .error e
    | .ok d => .ok (r.Ref.val, d, s)
  else if r.Title = "" then .error .missingTitle
  else if r.Bag = "" && r.Recipe = "" then .error (.missingBagRecipe r.Title)
  else
    match bagConstraintOf r with
    | .error e => .error e
    | .ok bagConstraint =>
      match searchTiddlers s (.and (.attrEq "title" r.Title) bagConstraint) true with
      | .ok (b :: _) => .ok (b.1, some b.2, s)
      | _ =>
        if !createMissing then .error (.notFound r.Title)
        else createTiddlerPermanode k s r

/-- Model of `TiddlyKeep.ResolveRef` (part_000 lines 509-521). -/
def ResolveRef (k : TiddlyKeep) (s : StoreState) (r : TiddlerRef) (createMissing : Bool) :
    Except KeepError (TiddlerRef × StoreState) :=
  if r.Ref.Valid && r.TextRef.Valid && r.MetaRef.Valid then .ok (r, s)
  else
    match getTiddlerPermanode k s r createMissing with
    | .error e => .error e
    | .ok (ref, d, s) => .ok (constructTiddlerRef ref d, s)

/-! ## Tag reconciliation (part_000 lines 486-507)

`stringset.Set` values are modelled by their canonical element list (strictly
sorted, duplicate-free); `Equals` is then list equality, `Diff` a filter,
`Elements()` the list itself and `len` its length. -/

/-- Boolean strict lexicographic comparison on character lists. -/
def strLtB : List Char → List Char → Bool
  | [], [] => false
  | [], _ :: _ => true
  | _ :: _, [] => false
  | a :: as, b :: bs => if a = b then strLtB as bs else Nat.blt a.toNat b.toNat

/-- Strict lexicographic string order used for the canonical element lists. -/
def strLt (a b : String) : Bool := strLtB a.data b.data

/-- Strict-order relation form of `strLt`. -/
def SLt (a b : String) : Prop := strLt a b = true

def insertSorted (x : String) : List String → List String
  | [] => [x]
  | y :: ys =>
    if x = y then y :: ys else if strLt x y then x :: y :: ys else y :: insertSorted x ys

/-- Model of `stringset.New`: the canonical element list of the set of the
given strings. -/
def stringsetNew (l : List String) : List String := l.foldr insertSorted []

/-- Mutation claims emitted by `updateTags`: nothing for equal sets, a single
overwriting `set` for a singleton wanted set, otherwise one `add` per element
only in `wanted` followed by one `del` per element only in `existing`.  The Go
set iteration order within the add and delete groups is unspecified (map
range); the model emits each group in sorted order. -/
def updateTagOps (ref : String) (existing wanted : List String) : List Claim :=
  if wanted = existing then []
  else if wanted.length = 1 then [setAttributeClaim ref "tag" (getFirst wanted)]
  else
    (wanted.filter (· ∉ existing)).map (addAttributeClaim ref "tag") ++
      (existing.filter (· ∉ wanted)).map (delAttributeClaim ref "tag")

/-- Sequential upload of the emitted claims, aborting on the first failure
(as the Go loops do). -/
def applyTagClaims (s : StoreState) : List Claim → Except KeepError StoreState
  | [] => .ok s
  | c :: rest =>
    match uploadAndSignBlob s c with
    | .error e => .error e
    | .ok s' => applyTagClaims s' rest

/-- Model of `updateTags` (part_000 lines 486-507): emit the reconciliation
claims and upload them in order. -/
def updateTags (s : StoreState) (ref : String) (existing wanted : List String) :
    Except KeepError StoreState :=
  applyTagClaims s (updateTagOps ref existing wanted)

/-! ## Store operations (part_000 lines 298-333, 583-720, 722-819) -/

/-- The `textEncoding` MIME-type table (part_000 lines 298-333). -/
def textEncoding : List (String × String) :=
  [("text/vnd.tiddlywiki", "utf8"),
   ("application/x-tiddler", "utf8"),
   ("application/x-tiddlers", "utf8"),
   ("application/x-tiddler-html-div", "utf8"),
   ("text/vnd.tiddlywiki2-recipe", "utf8"),
   ("text/plain", "utf8"),
   ("text/css", "utf8"),
   ("text/html", "utf8"),
   ("application/hta", "utf16le"),
   ("application/javascript", "utf8"),
   ("application/json", "utf8"),
   ("application/pdf", "base64"),
   ("application/zip", "base64"),
   ("image/jpeg", "base64"),
   ("image/png", "base64"),
   ("image/gif", "base64"),
   ("image/svg+xml", "utf8"),
   ("image/x-icon", "base64"),
   ("application/font-woff", "base64"),
   ("application/x-font-ttf", "base64"),
   ("audio/ogg", "base64"),
   ("video/mp4", "base64"),
   ("audio/mp3", "base64"),
   ("audio/mp4", "base64"),
   ("text/markdown", "utf8"),
   ("text/x-markdown", "utf8"),
   ("application/enex+xml", "utf8"),
   ("application/vnd.openxmlformats-officedocument.wordprocessingml.document", "base64"),
   ("application/vnd.openxmlformats-officedocument.spreadsheetml.sheet", "base64"),
   ("application/vnd.openxmlformats-officedocument.presentationml.presentation", "base64"),
   ("text/x-bibtex", "utf8"),
   ("application/x-bibtex", "utf8"),
   ("application/epub+zip", "base64"),
   ("application/octet-stream", "base64")]

/-- Go map indexing `textEncoding[t]` (missing keys yield `""`). -/
def textEncodingOf (t : String) : String := (alookup textEncoding t).getD ""

/-- The bag defaulting at the top of `PutTiddler` (mutating `t` in Go). -/
def putPrep (t : Tiddler) : Tiddler :=
  if t.Bag = "" then { t with Bag := "default" } else t

/-- The metadata object serialised by `PutTiddler`: the JSON object with the
`bag`, `recipe`, `revision`, `tags`, `text` and `tiddlykeep-ref` entries
removed. -/
def putMetaObj (t : Tiddler) : JObj :=
  (((((t.ToJSONObject.erase "bag").erase "recipe").erase "revision").erase
      "tags").erase "text").erase "tiddlykeep-ref"

/-- The body decoding step of `PutTiddler`: base64-decode for MIME types
marked `base64`, raw UTF-8 bytes otherwise. -/
def putDecodedText (t : Tiddler) : Except KeepError (List Nat) :=
  match textEncodingOf t.Type' with
  | "base64" =>
    match base64Decode t.Text.data with
    | some bytes => .ok bytes
    | none => .error .base64Error
  | _ => .ok (strBytes t.Text)

/-- Model of `TiddlyKeep.PutTiddler` (part_000 lines 583-644). -/
def PutTiddler (k : TiddlyKeep) (s : StoreState) (t0 : Tiddler) : Except KeepError StoreState :=
  let t := putPrep t0
  let obj := putMetaObj t
  match putDecodedText t with
  | .error e => .error e
  | .ok decoded =>
    match uploadFile s decoded with
    | .error e => .error e
    | .ok (textBlobRef, s) =>
      match uploadBlob s obj with
      | .error e => .error e
      | .ok (metaBlobRef, s) =>
        match ResolveRef k s { Ref := t.Ref, Title := t.Title, Bag := t.Bag, Recipe := t.Recipe }
            true with
        | .error e => .error e
        | .ok (existing, s) =>
          match (if textBlobRef ≠ existing.TextRef then
                  uploadAndSignBlob s
                    (setAttributeClaim existing.Ref.val "camliContent" textBlobRef.str)
                else .ok s) with
          | .error e => .error e
          | .ok s =>
            match (if metaBlobRef ≠ existing.MetaRef then
                    uploadAndSignBlob s
                      (setAttributeClaim existing.Ref.val "tiddlerMeta" metaBlobRef.str)
                  else .ok s) with
            | .error e => .error e
            | .ok s =>
              updateTags s existing.Ref.val (stringsetNew existing.Tags) (stringsetNew t.Tags)

def AlwaysIncludeText : Tiddler → Bool := fun _ => true

def NeverIncludeText : Tiddler → Bool := fun _ => false

/-- Model of `TiddlyKeep.GetTiddler` (part_000 lines 660-707).  Fetching the
metadata handle must yield raw JSON object bytes (anything else fails
`json.Unmarshal`), and fetching the body handle must yield a file schema blob
(anything else fails `FetchSchemaBlob`). -/
def GetTiddler (k : TiddlyKeep) (s : StoreState) (ref0 : TiddlerRef)
    (textFilter : Tiddler → Bool) : Except KeepError (Tiddler × StoreState) :=
  match ResolveRef k s ref0 false with
  | .error e => .error e
  | .ok (ref, s) =>
    if !ref.MetaRef.Valid || ref.Title = "" then .error .tiddlerNotFound
    else
      match fetchBlob s ref.MetaRef.val with
      | .error e => .error e
      | .ok (.file _) => .error .malformedJSON
      | .ok (.jsonBytes metaObj) =>
        let tiddler : Tiddler := { toTiddlerMeta := { toTiddlerRef := ref } }
        let tiddler := tiddler.MergeFrom metaObj
        if textFilter tiddler then
          match fetchBlob s ref.TextRef.val with
          | .error e => .error e
          | .ok (.jsonBytes _) => .error .fetchError
          | .ok (.file data) =>
            let encoded := match textEncodingOf tiddler.Type' with
              | "base64" => String.mk (base64Encode data)
              | _ => String.mk (utf8Decode data)
            .ok ({ tiddler with Text := encoded }, s)
        else .ok (tiddler, s)

/-- Model of `TiddlyKeep.DeleteTiddler` (part_000 lines 647-657). -/
def DeleteTiddler (k : TiddlyKeep) (s : StoreState) (ref : TiddlerRef) :
    Except KeepError StoreState :=
  match ResolveRef k s ref false with
  | .error e => .error e
  | .ok (r, s) => uploadAndSignBlob s (deleteClaim r.Ref.val)

/-- Model of `TiddlyKeep.listRefs` (part_000 lines 722-737): fetch each listed
node as a tiddler using its pre-fetched description. -/
def listRefs (k : TiddlyKeep) (s : StoreState) (res : List (String × Attrs))
    (textFilter : Tiddler → Bool) : Except KeepError (List Tiddler × StoreState) :=
  match res with
  | [] => .ok ([], s)
  | b :: rest =>
    match GetTiddler k s (constructTiddlerRef b.1 (some b.2)) textFilter with
    | .error e => .error e
    | .ok (t, s) =>
      match listRefs k s rest textFilter with
      | .error e => .error e
      | .ok (ts, s) => .ok (t :: ts, s)

/-- The recipe constraint construction of `ListRecipe` (part_000 lines
755-786): any-bag for `"all"`, any-bag plus system-title-marker match for
`"system"`, anything else unsupported. -/
def recipeConstraintOf (recipe : String) : Except KeepError Constraint :=
  let anyBag := Constraint.attrExists "tiddlerBag"
  match recipe with
  | "all" => .ok anyBag
  | "system" => .ok (.and anyBag (.attrStarts "title" systemTiddlerMarker))
  | _ => .error (.unsupportedRecipe recipe)

/-- Model of `TiddlyKeep.ListRecipe` (part_000 lines 755-793). -/
def ListRecipe (k : TiddlyKeep) (s : StoreState) (recipe : String)
    (textFilter : Tiddler → Bool) : Except KeepError (List Tiddler × StoreState) :=
  match recipeConstraintOf recipe with
  | .error e => .error e
  | .ok c =>
    match searchTiddlers s c false with
    | .error e => .error e
    | .ok res => listRefs k s res textFilter

/-- Model of `TiddlyKeep.ListBag` (part_000 lines 740-752). -/
def ListBag (k : TiddlyKeep) (s : StoreState) (bag : String)
    (textFilter : Tiddler → Bool) : Except KeepError (List Tiddler × StoreState) :=
  match searchTiddlers s (.attrEq "tiddlerBag" bag) false with
  | .error e => .error e
  | .ok res => listRefs k s res textFilter

/-! ## HTTP surface: ETag construction and the single-tiddler GET handler
(web.go lines 98-118, 178-183) -/

def isHexUpper (n : Nat) : Char :=
  if n < 10 then Char.ofNat (48 + n) else Char.ofNat (55 + n)

def unreservedByte (b : Nat) : Bool :=
  (65 ≤ b && b ≤ 90) || (97 ≤ b && b ≤ 122) || (48 ≤ b && b ≤ 57) ||
    b = 45 || b = 95 || b = 46 || b = 126

/-- Model of Go `url.QueryEscape`: unreserved bytes pass through, space
becomes `+`, every other byte becomes `%XX` (uppercase hex), per UTF-8 byte. -/
def queryEscape (s : String) : String :=
  String.mk ((strBytes s).foldr
    (fun b acc =>
      if unreservedByte b then Char.ofNat b :: acc
      else if b = 32 then '+' :: acc
      else '%' :: isHexUpper (b / 16) :: isHexUpper (b % 16) :: acc)
    [])

/-- Model of `constructETag` (web.go lines 178-183): resolve the ref in place
(no creation) and render `"{bag}/{urlencoded-title}/{revision-unix-seconds}:{node-identity}"`
in quotes.  Returns the resolved ref alongside, as the Go function mutates its
argument. -/
def constructETag (k : TiddlyKeep) (s : StoreState) (ref : TiddlerRef) :
    Except KeepError (String × TiddlerRef × StoreState) :=
  match ResolveRef k s ref false with
  | .error e => .error e
  | .ok (r, s) =>
      .ok ("\"" ++ r.Bag ++ "/" ++ queryEscape r.Title ++ "/" ++ toString r.Revision.unix ++
        ":" ++ r.Ref.str ++ "\"", r, s)

/-- HTTP response model: status code, headers in set order, and a body that is
either empty or the JSON object of a tiddler (the handler encodes it to
bytes). -/
structure HttpResponse where
  status : Nat
  headers : List (String × String)
  body : Option JObj
deriving DecidableEq

/-- Model of the `GET /bags/:bag/tiddlers/*tiddler` handler (web.go lines
98-118): compute the ETag (resolving the ref in place), answer 304 with an
empty body when `If-None-Match` equals it, otherwise serve the tiddler with
the `Etag` header set. -/
def getBagTiddlerHandler (k : TiddlyKeep) (s : StoreState) (bag title ifNoneMatch : String) :
    Except KeepError HttpResponse :=
  let ref : TiddlerRef := { Title := title, Bag := bag }
  match constructETag k s ref with
  | .error e => .error e
  | .ok (etag, ref, s) =>
    if ifNoneMatch = etag then .ok { status := 304, headers := [], body := none }
    else
      match GetTiddler k s ref AlwaysIncludeText with
      | .error e => .error e
      | .ok (t, _) =>
          .ok { status := 200
                headers := [("Etag", etag), ("Content-Type", "application/json")]
                body := some t.ToJSONObject }

/-! ## Derived definitions and fixtures used by the theorems -/

/-- The reserved top-level JSON keys of the codec (spec section 4.1). -/
def reservedKeys : List String :=
  ["title", "revision", "tags", "type", "bag", "recipe", "permissions", "creator", "created",
   "modifier", "modified", "text", "fields"]

/-- ETag format as worded by the specification:
`"{bag}/{urlencoded-title}/{revision-unix-seconds}:{node-identity}"` in
quotes. -/
def etagString (r : TiddlerRef) : String :=
  "\"" ++ r.Bag ++ "/" ++ queryEscape r.Title ++ "/" ++ toString r.Revision.unix ++ ":" ++
    r.Ref.str ++ "\""

/-- A JSON object whose `revision` entry is not a parseable timestamp. -/
def revBogusObj : JObj := [("title", .atom (.str "x")), ("revision", .atom (.str "bogus"))]

/-- The tiddler that decoding `revBogusObj` actually produces. -/
def revBogusTiddler : Tiddler := { Title := "x" }

/-- A tiddler carrying a valid storage handle. -/
def refTiddler : Tiddler := { Title := "x", Ref := ⟨"sha224-aa"⟩ }

/-- A store holding one fully populated tiddler node. -/
def oneNodeStore : StoreState :=
  { nodes := [("perma-7",
      { title := ["Foo"], tiddlerBag := ["b"], tiddlerMeta := ["cas-3"],
        camliContent := ["cas-4"], modTime := ⟨"2020-01-02T03:04:05Z"⟩ })] }

/-- A store holding one node that carries no metadata handle. -/
def noMetaStore : StoreState :=
  { nodes := [("perma-1", { title := ["t"], tiddlerBag := ["b"] })] }

/-- A store whose next query fails (external store fault). -/
def queryFailStore : StoreState := { queryFails := true }

/-- The effect of one non-tombstone claim on the attributes of its target
node (the inner computation of `applyClaim`). -/
def claimAttrStep (a : Attrs) (c : Claim) : Attrs :=
  a.set c.attr (match c.op with
    | .set => [c.value]
    | .add => a.get c.attr ++ [c.value]
    | .del => (a.get c.attr).filter (· ≠ c.value)
    | .delNode => a.get c.attr)

/-- The effect of one tag claim on the `tag` attribute value list. -/
def tagValStep (vs : List String) (c : Claim) : List String :=
  match c.op with
  | .set => [c.value]
  | .add => vs ++ [c.value]
  | .del => vs.filter (· ≠ c.value)
  | .delNode => vs

/-- Store well-formedness: node identities are unique, the next permanode
identity is fresh, and no content blob is keyed by the empty handle. -/
def StoreState.wf (s : StoreState) : Prop :=
  (s.nodes.map Prod.fst).Nodup ∧
  ("perma-" ++ toString s.nextNode) ∉ s.nodes.map Prod.fst ∧
  "" ∉ s.blobs.map Prod.fst

/-- A small tiddler used for the concrete put/put-again run. -/
def putFixture : Tiddler := { Title := "Foo", Text := "hi", Type' := "text/plain", Tags := ["x"] }

/-- The state produced by putting `putFixture` into the empty store. -/
def putOnceState : StoreState :=
  match PutTiddler {} {} putFixture with
  | .ok s => s
  | .error _ => {}

/-- One optional entry of the JSON encoding: present exactly when the value is
non-empty (the `addIfNonEmpty` contribution). -/
def optS (f v : String) : JObj := if v = "" then [] else [(f, .atom (.str v))]

/-- The optional `tags` entry of the JSON encoding. -/
def tagsOpt (tags : List String) : JObj := if tags = [] then [] else [("tags", .strs tags)]

/-- The non-`Fields` part of the JSON encoding of a tiddler with a zero
storage handle, in emission order. -/
def encTail (t : Tiddler) : JObj :=
  [("title", .atom (.str t.Title)), ("revision", .atom (.str t.Revision.rep))] ++
    optS "bag" t.Bag ++ optS "recipe" t.Recipe ++ optS "type" t.Type' ++
    optS "text" t.Text ++ optS "permissions" t.Permissions ++ optS "created" t.Created ++
    optS "creator" t.Creator ++ optS "modified" t.Modified ++ optS "modifier" t.Modifier ++
    tagsOpt t.Tags

/-- A representative tiddler exercising every JSON-representable field. -/
def rtTiddler : Tiddler :=
  { Title := "x", Bag := "b", Text := "hello", Tags := ["p", "q"],
    Revision := ⟨"2020-01-02T03:04:05Z"⟩, Type' := "text/plain",
    Fields := [("custom", .atom (.str "v"))], Creator := "me" }

/-! ## Small facts about the resolver used by several claims -/

theorem constructTiddlerRef_Recipe (n : String) (d : Option Attrs) :
    (constructTiddlerRef n d).Recipe = "" := by
  cases d <;> rfl

/-- Permanode lookup without creation never mutates the store. -/
theorem permanode_false_state (k : TiddlyKeep) (s : StoreState) (r : TiddlerRef)
    (n : String) (d : Option Attrs) (s' : StoreState)
    (h : getTiddlerPermanode k s r false = .ok (n, d, s')) : s' = s := by
  unfold getTiddlerPermanode at h
  split at h
  · split at h <;> simp_all
  · split at h
    · simp_all
    · split at h
      · simp_all
      · split at h
        · simp_all
        · split at h <;> simp_all

/-- Resolution without creation never mutates the store. -/
theorem resolve_false_state (k : TiddlyKeep) (s : StoreState) (r : TiddlerRef)
    (r' : TiddlerRef) (s' : StoreState) (h : ResolveRef k s r false = .ok (r', s')) : s' = s := by
  unfold ResolveRef at h
  split at h
  · injection h with h1
    injection h1 with _ h2
    exact h2.symm
  · rcases hgp : getTiddlerPermanode k s r false with e | ⟨n, d, s2⟩
    · rw [hgp] at h
      exact absurd h (by simp)
    · rw [hgp] at h
      injection h with h1
      injection h1 with _ h2
      exact h2 ▸ permanode_false_state k s r n d s2 hgp

theorem bagConstraintOf_unsupported (r : TiddlerRef) (hB : r.Bag = "")
    (hA : r.Recipe ≠ "all") (hS : r.Recipe ≠ "system") :
    bagConstraintOf r = .error (.recipeNotSupported r.Recipe) := by
  unfold bagConstraintOf
  rw [if_neg (by simp [hB])]
  split <;> simp_all

theorem recipeConstraintOf_unsupported (recipe : String) (hA : recipe ≠ "all")
    (hS : recipe ≠ "system") :
    recipeConstraintOf recipe = .error (.unsupportedRecipe recipe) := by
  unfold recipeConstraintOf
  split <;> simp_all

theorem resolve_error_of_gp (k : TiddlyKeep) (s : StoreState) (r : TiddlerRef) (cm : Bool)
    (e : KeepError) (hv : r.Ref.Valid = false)
    (h : getTiddlerPermanode k s r cm = .error e) : ResolveRef k s r cm = .error e := by
  unfold ResolveRef
  rw [if_neg (by simp [hv]), h]

/-- Claim C7: decoding the text block `"tags: a [[b c]]\n\nbody"` produces a
tiddler whose tags are `["a", "b c"]` (the space-separated tags header with
the bracket-quoted span accumulated until the closing `]]` and the brackets
stripped) and whose text is everything after the first blank line. -/
theorem claim7_text_decode_scenario :
    Tiddler.UnmarshalText "tags: a [[b c]]\n\nbody" =
      .ok { Tags := ["a", "b c"], Text := "body" } := by decide

/-- Claim C5 counterexample: an input whose `revision` entry is not a
parseable RFC3339 timestamp decodes successfully (to a tiddler with the zero
revision) instead of returning an error. -/
theorem claim5_counterexample :
    Tiddler.UnmarshalJSON (some revBogusObj) = .ok revBogusTiddler ∧
      goTimeParse "bogus" = none ∧ revBogusTiddler.Revision = GoTime.zero := by decide

theorem foldl_mergeStep_revision (m : JObj) :
    ∀ t : TiddlerMeta, (∀ v, ("revision", v) ∈ m → goTimeParse v.goString = none) →
      (m.foldl mergeStep t).Revision = t.Revision := by
  induction m with
  | nil => intro t _; rfl
  | cons kv rest ih =>
    intro t h
    rw [List.foldl_cons, ih _ (fun v hv => h v (List.mem_cons_of_mem _ hv))]
    unfold mergeStep
    split
    all_goals try rfl
    next heq =>
      split
      next hrev =>
        have hm : ("revision", kv.2) ∈ kv :: rest := by
          rw [show (("revision", kv.2) : String × JValue) = kv from Prod.ext heq.symm rfl]
          exact List.mem_cons_self kv rest
        rw [h kv.2 hm] at hrev
        exact absurd hrev (by simp)
      next => rfl
    next =>
      split <;> rfl

/-- Claim C5 (amended): decoding JSON fails only when the input bytes are not
a JSON object (structural failure); a `revision` entry that does not parse as
an RFC3339 timestamp is silently ignored, leaving the revision at its zero
value rather than producing an error. -/
theorem claim5_revision_ignored :
    (∀ m : JObj, ∃ t, Tiddler.UnmarshalJSON (some m) = .ok t) ∧
    Tiddler.UnmarshalJSON none = .error .malformedJSON ∧
    (∀ (m : JObj) (t : Tiddler), Tiddler.UnmarshalJSON (some m) = .ok t →
      (∀ v, ("revision", v) ∈ m → goTimeParse v.goString = none) →
      t.Revision = GoTime.zero) := by
  refine ⟨fun m => ⟨_, rfl⟩, rfl, fun m t h hrev => ?_⟩
  have ht : t = Tiddler.empty.MergeFrom m := by
    unfold Tiddler.UnmarshalJSON at h
    injection h with h1
    exact h1.symm
  subst ht
  have key : ∀ t0 : TiddlerMeta, t0.Revision = GoTime.zero →
      (List.foldl mergeStep t0 m).Revision = GoTime.zero :=
    fun t0 h0 => (foldl_mergeStep_revision m t0 hrev).trans h0
  unfold Tiddler.MergeFrom TiddlerMeta.MergeFrom
  split <;> split <;> (apply key; rfl)

theorem claim5_witness :
    revBogusTiddler.Revision = GoTime.zero ∧
      Tiddler.UnmarshalJSON (some revBogusObj) = .ok revBogusTiddler :=
  ⟨claim5_revision_ignored.2.2 revBogusObj revBogusTiddler (by decide)
    (fun v hv => by
      have : v = .atom (.str "bogus") := by
        simp only [revBogusObj, List.mem_cons, List.not_mem_nil, or_false,
          Prod.mk.injEq] at hv
        rcases hv with ⟨h1, _⟩ | ⟨_, h2⟩
        · exact absurd h1 (by decide)
        · exact h2
      rw [this]
      decide),
   by decide⟩

/-- Claim C4: with an invalid storage handle, resolution fails with an
invalid-reference error when the title is empty or when both bag and recipe
are empty, and with an unsupported-recipe error when the bag is empty and the
recipe is any other value outside `{"all", "system"}`; likewise listing any
recipe outside `{"all", "system"}` fails with an unsupported-recipe error. -/
theorem claim4_error_taxonomy (k : TiddlyKeep) (s : StoreState) (r : TiddlerRef)
    (cm : Bool) (recipe : String) (tf : Tiddler → Bool) :
    (r.Ref.Valid = false → r.Title = "" →
      ResolveRef k s r cm = .error .missingTitle ∧
        KeepError.missingTitle.isInvalidReference = true) ∧
    (r.Ref.Valid = false → r.Title ≠ "" → r.Bag = "" → r.Recipe = "" →
      ResolveRef k s r cm = .error (.missingBagRecipe r.Title) ∧
        (KeepError.missingBagRecipe r.Title).isInvalidReference = true) ∧
    (r.Ref.Valid = false → r.Title ≠ "" → r.Bag = "" → r.Recipe ≠ "" → r.Recipe ≠ "all" →
        r.Recipe ≠ "system" →
      ResolveRef k s r cm = .error (.recipeNotSupported r.Recipe) ∧
        (KeepError.recipeNotSupported r.Recipe).isUnsupportedRecipe = true) ∧
    (recipe ≠ "all" → recipe ≠ "system" →
      ListRecipe k s recipe tf = .error (.unsupportedRecipe recipe) ∧
        (KeepError.unsupportedRecipe recipe).isUnsupportedRecipe = true) := by
  refine ⟨fun hv hT => ⟨?_, rfl⟩, fun hv hT hB hR => ⟨?_, rfl⟩,
    fun hv hT hB hE hA hS => ⟨?_, rfl⟩, fun hA hS => ⟨?_, rfl⟩⟩
  · exact resolve_error_of_gp k s r cm _ hv (by
      unfold getTiddlerPermanode
      rw [if_neg (by simp [hv]), if_pos hT])
  · exact resolve_error_of_gp k s r cm _ hv (by
      unfold getTiddlerPermanode
      rw [if_neg (by simp [hv]), if_neg hT, if_pos (by simp [hB, hR])])
  · exact resolve_error_of_gp k s r cm _ hv (by
      unfold getTiddlerPermanode
      rw [if_neg (by simp [hv]), if_neg hT, if_neg (by simp [hE]),
        bagConstraintOf_unsupported r hB hA hS])
  · unfold ListRecipe
    rw [recipeConstraintOf_unsupported recipe hA hS]

theorem claim4_witness :
    ResolveRef {} {} { Title := "t", Recipe := "bogus" } false =
        .error (.recipeNotSupported "bogus") ∧
      ListRecipe {} {} "bogus" AlwaysIncludeText = .error (.unsupportedRecipe "bogus") :=
  ⟨((claim4_error_taxonomy {} {} { Title := "t", Recipe := "bogus" } false "bogus"
      AlwaysIncludeText).2.2.1 (by decide) (by decide) (by decide) (by decide) (by decide)
      (by decide)).1,
   ((claim4_error_taxonomy {} {} { Title := "t", Recipe := "bogus" } false "bogus"
      AlwaysIncludeText).2.2.2 (by decide) (by decide)).1⟩

/-- Claim C10: when the storage handle of a ref is not already valid, a
successful resolution replaces the whole ref with one rebuilt by
`constructTiddlerRef` from the found node's identity and described
attributes; in particular the resulting ref's `Recipe` field is always empty,
since `constructTiddlerRef` never populates it. -/
theorem claim10_resolve_rebuilds_ref (k : TiddlyKeep) (s : StoreState) (r : TiddlerRef)
    (cm : Bool) (r' : TiddlerRef) (s' : StoreState)
    (hv : r.Ref.Valid = false) (h : ResolveRef k s r cm = .ok (r', s')) :
    r'.Recipe = "" ∧ ∃ n d, r' = constructTiddlerRef n d := by
  unfold ResolveRef at h
  rw [if_neg (by simp [hv])] at h
  rcases hgp : getTiddlerPermanode k s r cm with e | ⟨n, d, s2⟩ <;> rw [hgp] at h
  · exact absurd h (by simp)
  · injection h with h1
    injection h1 with h2 _
    exact ⟨h2 ▸ constructTiddlerRef_Recipe n d, n, d, h2.symm⟩

theorem claim10_witness :
    ∃ r' : TiddlerRef,
      (ResolveRef {} oneNodeStore { Title := "Foo", Bag := "b", Recipe := "all" } false =
        .ok (r', oneNodeStore)) ∧ r'.Recipe = "" :=
  ⟨constructTiddlerRef "perma-7"
      (some { title := ["Foo"], tiddlerBag := ["b"], tiddlerMeta := ["cas-3"],
              camliContent := ["cas-4"], modTime := ⟨"2020-01-02T03:04:05Z"⟩ }),
   by decide,
   (claim10_resolve_rebuilds_ref {} oneNodeStore
      { Title := "Foo", Bag := "b", Recipe := "all" } false _ oneNodeStore
      (by decide) (by decide)).1⟩

/-- Claim C6 counterexample: with the external store's query failing
(`queryFails`), resolve-or-create silently discards the store error and
creates a fresh node, returning success — the search failure is not
propagated. -/
theorem claim6_counterexample :
    queryFailStore.queryFails = true ∧
      getTiddlerPermanode {} queryFailStore { Title := "t", Bag := "b" } true =
        .ok ("perma-0", none,
          { nodes := [("perma-0", { title := ["t"], tiddlerBag := ["b"] })]
            claims := [setAttributeClaim "perma-0" "title" "t",
                       setAttributeClaim "perma-0" "tiddlerBag" "b"]
            nextNode := 1
            queryFails := true }) := by decide

theorem bagConstraintOf_ok_not_both_empty (r : TiddlerRef) (c : Constraint)
    (hc : bagConstraintOf r = .ok c) : ¬(r.Bag = "" ∧ r.Recipe = "") := by
  rintro ⟨h1, h2⟩
  unfold bagConstraintOf at hc
  rw [if_neg (by simp [h1]), h2] at hc
  exact absurd hc (by simp)

/-- Claim C6 (amended): failures of the external describe call and of the
node-creation uploads propagate to the caller, but a failing title/bag search
during resolve-or-create is silently treated as "no match": with
`createMissing` unset it is replaced by a not-found error, and with it set a
fresh node is created as if the tiddler did not exist. -/
theorem claim6_error_propagation (k : TiddlyKeep) (s : StoreState) (r : TiddlerRef)
    (cm : Bool) (c : Constraint) :
    (r.Ref.Valid = true → s.describeFails = true →
      getTiddlerPermanode k s r cm = .error .storeError) ∧
    (r.Ref.Valid = false → r.Title ≠ "" → s.queryFails = true → bagConstraintOf r = .ok c →
      getTiddlerPermanode k s r cm =
        if cm then createTiddlerPermanode k s r else .error (.notFound r.Title)) ∧
    (s.uploadFails = true → createTiddlerPermanode k s r = .error .storeError) ∧
    (s.uploadFails = false → s.signFails = true →
      createTiddlerPermanode k s r = .error (.settingAttr "title")) := by
  refine ⟨fun hv hd => ?_, fun hv hT hq hc => ?_, fun hu => ?_, fun hu hs => ?_⟩
  · unfold getTiddlerPermanode describe
    rw [if_pos hv, if_pos hd]
  · have hBR := bagConstraintOf_ok_not_both_empty r c hc
    unfold getTiddlerPermanode
    rw [if_neg (by simp [hv]), if_neg hT, if_neg (by simpa using hBR), hc]
    unfold searchTiddlers query
    simp only [hq]
    cases cm <;> simp
  · unfold createTiddlerPermanode uploadNewPermanode
    rw [if_pos hu]
  · unfold createTiddlerPermanode uploadNewPermanode uploadAndSignBlob
    simp [hu, hs]

theorem claim6_witness :
    getTiddlerPermanode {} ({ queryFails := true, uploadFails := true } : StoreState)
        { Title := "t", Bag := "b" } true = .error .storeError ∧
      getTiddlerPermanode {} queryFailStore { Title := "t", Bag := "b" } false =
        .error (.notFound "t") :=
  ⟨by
    rw [(claim6_error_propagation {} ({ queryFails := true, uploadFails := true } : StoreState)
        { Title := "t", Bag := "b" } true (.attrEq "tiddlerBag" "b")).2.1
      (by decide) (by decide) (by decide) (by decide)]
    exact (claim6_error_propagation {} ({ queryFails := true, uploadFails := true } : StoreState)
        { Title := "t", Bag := "b" } true (.attrEq "tiddlerBag" "b")).2.2.1 (by decide),
   by
    rw [(claim6_error_propagation {} queryFailStore { Title := "t", Bag := "b" } false
        (.attrEq "tiddlerBag" "b")).2.1 (by decide) (by decide) (by decide) (by decide)]
    rfl⟩

/-- Claim C8: a get resolves its ref without creating anything (resolution
without the create flag never mutates the store), fails with the not-found
error whenever the resolved node lacks a metadata blob handle or has an empty
title, and returns a tiddler only when both are present. -/
theorem claim8_get_not_found (k : TiddlyKeep) (s : StoreState) (ref : TiddlerRef)
    (tf : Tiddler → Bool) :
    (∀ r' s', ResolveRef k s ref false = .ok (r', s') → s' = s) ∧
    (∀ r' s', ResolveRef k s ref false = .ok (r', s') →
      (r'.MetaRef.Valid = false ∨ r'.Title = "") →
      GetTiddler k s ref tf = .error .tiddlerNotFound) ∧
    (∀ t s₂, GetTiddler k s ref tf = .ok (t, s₂) →
      s₂ = s ∧ ∃ r', ResolveRef k s ref false = .ok (r', s) ∧
        r'.MetaRef.Valid = true ∧ r'.Title ≠ "") := by
  refine ⟨fun r' s' h => resolve_false_state k s ref r' s' h, fun r' s' h hcond => ?_,
    fun t s₂ h => ?_⟩
  · unfold GetTiddler
    rw [h]
    rcases hcond with h1 | h1 <;> simp [h1]
  · unfold GetTiddler at h
    split at h
    · exact absurd h (by simp)
    next r' s' heq =>
      have hs0 : s' = s := resolve_false_state k s ref r' s' heq
      subst hs0
      split at h
      · exact absurd h (by simp)
      next hcond =>
        have hc2 : r'.MetaRef.Valid = true ∧ r'.Title ≠ "" := by
          simpa [not_or] using hcond
        refine ⟨?_, r', heq, hc2⟩
        split at h
        · exact absurd h (by simp)
        · exact absurd h (by simp)
        · dsimp only [] at h
          split at h
          all_goals try split at h
          all_goals
            first
              | exact Except.noConfusion h
              | (injection h with h1; injection h1 with _ h3; exact h3.symm)

theorem claim8_witness :
    GetTiddler {} noMetaStore { Title := "t", Bag := "b" } AlwaysIncludeText =
      .error .tiddlerNotFound :=
  (claim8_get_not_found {} noMetaStore { Title := "t", Bag := "b" } AlwaysIncludeText).2.1
    (constructTiddlerRef "perma-1" (some { title := ["t"], tiddlerBag := ["b"] }))
    noMetaStore (by decide) (by decide)

/-- Claim C9: for a single-tiddler GET, the ETag equals the quoted
`{bag}/{urlencoded-title}/{revision-unix-seconds}:{node-identity}` string
built from the resolved ref, and a request whose `If-None-Match` header
equals the current ETag receives a 304 response with no headers and an empty
body. -/
theorem claim9_etag (k : TiddlyKeep) (s : StoreState) (bag title inm : String)
    (r' : TiddlerRef) (s' : StoreState)
    (hres : ResolveRef k s { Title := title, Bag := bag } false = .ok (r', s')) :
    constructETag k s { Title := title, Bag := bag } = .ok (etagString r', r', s') ∧
    (inm = etagString r' →
      getBagTiddlerHandler k s bag title inm =
        .ok { status := 304, headers := [], body := none }) := by
  have hetag : constructETag k s { Title := title, Bag := bag } = .ok (etagString r', r', s') := by
    unfold constructETag
    rw [hres]
    rfl
  refine ⟨hetag, fun hinm => ?_⟩
  simp only [getBagTiddlerHandler, hetag, hinm, if_true]

theorem claim9_witness :
    getBagTiddlerHandler {} oneNodeStore "b" "Foo" "\"b/Foo/1577934245:perma-7\"" =
      .ok { status := 304, headers := [], body := none } :=
  (claim9_etag {} oneNodeStore "b" "Foo" "\"b/Foo/1577934245:perma-7\""
    (constructTiddlerRef "perma-7"
      (some { title := ["Foo"], tiddlerBag := ["b"], tiddlerMeta := ["cas-3"],
              camliContent := ["cas-4"], modTime := ⟨"2020-01-02T03:04:05Z"⟩ }))
    oneNodeStore (by decide)).2 (by decide)

/-! ## Canonical string-set lemmas (for the tag reconciliation claims) -/

theorem char_toNat_inj {a b : Char} (h : a.toNat = b.toNat) : a = b :=
  Char.ext (UInt32.ext h)

theorem strLtB_irrefl (l : List Char) : strLtB l l = false := by
  induction l with
  | nil => rfl
  | cons a as ih => simp [strLtB, ih]

theorem strLtB_trans (a : List Char) : ∀ b c : List Char,
    strLtB a b = true → strLtB b c = true → strLtB a c = true := by
  induction a with
  | nil =>
    intro b c h1 h2
    cases b with
    | nil => exact absurd h1 (by simp [strLtB])
    | cons y ys =>
      cases c with
      | nil => exact absurd h2 (by simp [strLtB])
      | cons z zs => rfl
  | cons x xs ih =>
    intro b c h1 h2
    cases b with
    | nil => exact absurd h1 (by simp [strLtB])
    | cons y ys =>
      cases c with
      | nil => exact absurd h2 (by simp [strLtB])
      | cons z zs =>
        unfold strLtB at h1 h2 ⊢
        by_cases hxy : x = y
        · subst hxy
          rw [if_pos rfl] at h1
          by_cases hxz : x = z
          · subst hxz
            rw [if_pos rfl] at h2 ⊢
            exact ih ys zs h1 h2
          · rw [if_neg hxz] at h2 ⊢
            exact h2
        · rw [if_neg hxy] at h1
          by_cases hyz : y = z
          · subst hyz
            rw [if_neg hxy]
            exact h1
          · rw [if_neg hyz] at h2
            rw [Nat.blt_eq] at h1 h2
            have hxz : x.toNat < z.toNat := Nat.lt_trans h1 h2
            rw [if_neg (fun he => absurd (he ▸ hxz) (lt_irrefl _)), Nat.blt_eq]
            exact hxz

theorem strLtB_total (a : List Char) : ∀ b : List Char, a ≠ b →
    strLtB a b = true ∨ strLtB b a = true := by
  induction a with
  | nil =>
    intro b hne
    cases b with
    | nil => exact absurd rfl hne
    | cons y ys => exact Or.inl rfl
  | cons x xs ih =>
    intro b hne
    cases b with
    | nil => exact Or.inr rfl
    | cons y ys =>
      by_cases hxy : x = y
      · subst hxy
        have hne2 : xs ≠ ys := fun h => hne (by rw [h])
        rcases ih ys hne2 with h | h
        · exact Or.inl (by simp [strLtB, h])
        · exact Or.inr (by simp [strLtB, h])
      · have hN : x.toNat ≠ y.toNat := fun h => hxy (char_toNat_inj h)
        rcases Nat.lt_or_ge x.toNat y.toNat with h | h
        · exact Or.inl (by simp [strLtB, hxy, Nat.blt_eq, h])
        · have hyx : y.toNat < x.toNat := lt_of_le_of_ne h (Ne.symm hN)
          exact Or.inr (by simp [strLtB, Ne.symm hxy, Nat.blt_eq, hyx])

theorem sLt_irrefl (a : String) : ¬SLt a a := by
  unfold SLt strLt
  rw [strLtB_irrefl]
  simp

theorem sLt_trans {a b c : String} (h1 : SLt a b) (h2 : SLt b c) : SLt a c :=
  strLtB_trans a.data b.data c.data h1 h2

theorem sLt_total {a b : String} (h : a ≠ b) : SLt a b ∨ SLt b a :=
  strLtB_total a.data b.data (fun hd => h (String.ext hd))

theorem sLt_ne {a b : String} (h : SLt a b) : a ≠ b :=
  fun he => sLt_irrefl a (he ▸ h)

theorem mem_insertSorted (x a : String) (l : List String) :
    a ∈ insertSorted x l ↔ a = x ∨ a ∈ l := by
  induction l with
  | nil => simp [insertSorted]
  | cons y ys ih =>
    unfold insertSorted
    by_cases h1 : x = y
    · subst h1
      rw [if_pos rfl]
      simp only [List.mem_cons]
      tauto
    · rw [if_neg h1]
      by_cases h2 : strLt x y = true
      · rw [if_pos h2]
        simp only [List.mem_cons]
      · rw [if_neg h2]
        simp only [List.mem_cons, ih]
        tauto

theorem pairwise_insertSorted (x : String) (l : List String)
    (h : l.Pairwise SLt) : (insertSorted x l).Pairwise SLt := by
  induction l with
  | nil => simp [insertSorted]
  | cons y ys ih =>
    rw [List.pairwise_cons] at h
    obtain ⟨hy, hys⟩ := h
    unfold insertSorted
    by_cases h1 : x = y
    · rw [if_pos h1]
      exact List.pairwise_cons.mpr ⟨hy, hys⟩
    · rw [if_neg h1]
      by_cases h2 : strLt x y = true
      · rw [if_pos h2]
        refine List.pairwise_cons.mpr ⟨?_, List.pairwise_cons.mpr ⟨hy, hys⟩⟩
        intro a ha
        rcases List.mem_cons.mp ha with rfl | ha2
        · exact h2
        · exact sLt_trans h2 (hy a ha2)
      · rw [if_neg h2]
        refine List.pairwise_cons.mpr ⟨?_, ih hys⟩
        intro a ha
        rcases (mem_insertSorted x a ys).mp ha with rfl | ha2
        · rcases sLt_total h1 with hlt | hlt
          · exact absurd hlt h2
          · exact hlt
        · exact hy a ha2

theorem pairwise_stringsetNew (l : List String) : (stringsetNew l).Pairwise SLt := by
  induction l with
  | nil => exact List.Pairwise.nil
  | cons x xs ih => exact pairwise_insertSorted x (stringsetNew xs) ih

theorem mem_stringsetNew (a : String) (l : List String) : a ∈ stringsetNew l ↔ a ∈ l := by
  induction l with
  | nil => simp [stringsetNew]
  | cons x xs ih =>
    show a ∈ insertSorted x (stringsetNew xs) ↔ _
    rw [mem_insertSorted, ih]
    simp

theorem canon_ext (l₁ : List String) : ∀ l₂ : List String, l₁.Pairwise SLt →
    l₂.Pairwise SLt → (∀ a, a ∈ l₁ ↔ a ∈ l₂) → l₁ = l₂ := by
  induction l₁ with
  | nil =>
    intro l₂ _ _ h
    cases l₂ with
    | nil => rfl
    | cons b l₂ => exact absurd ((h b).mpr (List.mem_cons_self b l₂)) (by simp)
  | cons a l₁ ih =>
    intro l₂ h₁ h₂ h
    cases l₂ with
    | nil => exact absurd ((h a).mp (List.mem_cons_self a l₁)) (by simp)
    | cons b l₂ =>
      rw [List.pairwise_cons] at h₁ h₂
      obtain ⟨ha1, h₁'⟩ := h₁
      obtain ⟨hb1, h₂'⟩ := h₂
      have hab : a = b := by
        rcases List.mem_cons.mp ((h a).mp (List.mem_cons_self a l₁)) with heq | ha2
        · exact heq
        · rcases List.mem_cons.mp ((h b).mpr (List.mem_cons_self b l₂)) with heq | hb2
          · exact heq.symm
          · exact absurd (sLt_trans (hb1 a ha2) (ha1 b hb2)) (sLt_irrefl _)
      subst hab
      have htail : l₁ = l₂ := by
        apply ih l₂ h₁' h₂'
        intro x
        constructor
        · intro hx
          rcases List.mem_cons.mp ((h x).mp (List.mem_cons_of_mem a hx)) with rfl | hx2
          · exact absurd (ha1 x hx) (sLt_irrefl _)
          · exact hx2
        · intro hx
          rcases List.mem_cons.mp ((h x).mpr (List.mem_cons_of_mem a hx)) with rfl | hx2
          · exact absurd (hb1 x hx) (sLt_irrefl _)
          · exact hx2
      rw [htail]

theorem stringsetNew_eq_of_same_mem (ex wa : List String) (h : ∀ x, x ∈ ex ↔ x ∈ wa) :
    stringsetNew wa = stringsetNew ex :=
  canon_ext (stringsetNew wa) (stringsetNew ex) (pairwise_stringsetNew wa)
    (pairwise_stringsetNew ex)
    (fun a => by rw [mem_stringsetNew, mem_stringsetNew]; exact (h a).symm)

theorem stringsetNew_singleton (wa : List String) (x : String)
    (h : ∀ y, y ∈ wa ↔ y = x) : stringsetNew wa = [x] :=
  canon_ext (stringsetNew wa) [x] (pairwise_stringsetNew wa) (by simp)
    (fun a => by rw [mem_stringsetNew, h a]; simp)

theorem applyClaim_parts (s : StoreState) (c : Claim) :
    (applyClaim s c).blobs = s.blobs ∧ (applyClaim s c).claims = s.claims ∧
    (applyClaim s c).nextNode = s.nextNode ∧ (applyClaim s c).nextBlob = s.nextBlob ∧
    (applyClaim s c).queryFails = s.queryFails ∧
    (applyClaim s c).describeFails = s.describeFails ∧
    (applyClaim s c).uploadFails = s.uploadFails ∧
    (applyClaim s c).signFails = s.signFails := by
  unfold applyClaim
  split <;> exact ⟨rfl, rfl, rfl, rfl, rfl, rfl, rfl, rfl⟩

/-- Sequentially uploading claims in a state whose signing succeeds appends
exactly those claims and touches nothing but the node attribute map. -/
theorem applyTagClaims_ok (cs : List Claim) : ∀ s : StoreState, s.signFails = false →
    ∃ s', applyTagClaims s cs = .ok s' ∧ s'.claims = s.claims ++ cs ∧
      s'.blobs = s.blobs ∧ s'.nextNode = s.nextNode ∧ s'.nextBlob = s.nextBlob ∧
      s'.queryFails = s.queryFails ∧ s'.describeFails = s.describeFails ∧
      s'.uploadFails = s.uploadFails ∧ s'.signFails = false := by
  induction cs with
  | nil => exact fun s h => ⟨s, rfl, by simp, rfl, rfl, rfl, rfl, rfl, rfl, h⟩
  | cons c rest ih =>
    intro s h
    have happ := applyClaim_parts s c
    obtain ⟨hb, hc, hn, hnb, hq, hd, hu, hs⟩ := happ
    obtain ⟨s', hok, hcl, hb', hn', hnb', hq', hd', hu', hs'⟩ :=
      ih { applyClaim s c with claims := s.claims ++ [c] } (by simpa using hs ▸ h)
    refine ⟨s', ?_, ?_, ?_, ?_, ?_, ?_, ?_, ?_, hs'⟩
    · unfold applyTagClaims uploadAndSignBlob
      rw [if_neg (by simp [h])]
      exact hok
    · rw [hcl]
      simp
    · rw [hb']
      simpa using hb
    · rw [hn']
      simpa using hn
    · rw [hnb']
      simpa using hnb
    · rw [hq']
      simpa using hq
    · rw [hd']
      simpa using hd
    · rw [hu']
      simpa using hu

/-- Claim C1: the tag reconciliation emits no mutation for equal sets, a
single overwriting set-tag mutation for a singleton wanted set differing from
the existing set, and otherwise exactly one add per element only in the
wanted set followed by exactly one delete per element only in the existing
set, never touching elements present in both; for existing `{a, b}` and
wanted `{b, c}` it emits exactly `add(c)` then `delete(a)`.  The mutations
are uploaded in the emitted order by `updateTags`. -/
theorem claim1_tag_reconciliation (ref : String) (ex wa : List String) :
    ((∀ x, x ∈ ex ↔ x ∈ wa) →
      updateTagOps ref (stringsetNew ex) (stringsetNew wa) = []) ∧
    (∀ x, (∀ y, y ∈ wa ↔ y = x) → ¬(∀ y, y ∈ ex ↔ y ∈ wa) →
      updateTagOps ref (stringsetNew ex) (stringsetNew wa) =
        [setAttributeClaim ref "tag" x]) ∧
    (¬(∀ y, y ∈ ex ↔ y ∈ wa) → ¬(∃ x, ∀ y, y ∈ wa ↔ y = x) →
      (∀ x, addAttributeClaim ref "tag" x ∈
          updateTagOps ref (stringsetNew ex) (stringsetNew wa) ↔ (x ∈ wa ∧ x ∉ ex)) ∧
      (∀ x, delAttributeClaim ref "tag" x ∈
          updateTagOps ref (stringsetNew ex) (stringsetNew wa) ↔ (x ∈ ex ∧ x ∉ wa)) ∧
      (updateTagOps ref (stringsetNew ex) (stringsetNew wa)).Nodup ∧
      (∃ adds dels : List String,
        updateTagOps ref (stringsetNew ex) (stringsetNew wa) =
          List.map (addAttributeClaim ref "tag") adds ++
            List.map (delAttributeClaim ref "tag") dels) ∧
      (∀ x, x ∈ ex → x ∈ wa →
        ∀ c ∈ updateTagOps ref (stringsetNew ex) (stringsetNew wa), c.value ≠ x)) ∧
    updateTagOps ref (stringsetNew ["a", "b"]) (stringsetNew ["b", "c"]) =
      [addAttributeClaim ref "tag" "c", delAttributeClaim ref "tag" "a"] ∧
    (∀ s : StoreState, s.signFails = false →
      ∃ s', updateTags s ref (stringsetNew ex) (stringsetNew wa) = .ok s' ∧
        s'.claims = s.claims ++ updateTagOps ref (stringsetNew ex) (stringsetNew wa)) := by
  refine ⟨fun h => ?_, fun x hsing hne => ?_, fun hne hnosing => ?_, by rfl, fun s hs => ?_⟩
  · rw [updateTagOps, if_pos (stringsetNew_eq_of_same_mem ex wa h)]
  · have hW : stringsetNew wa = [x] := stringsetNew_singleton wa x hsing
    have hWE : stringsetNew wa ≠ stringsetNew ex := by
      intro heq
      exact hne (fun y => by rw [← mem_stringsetNew y ex, ← heq, mem_stringsetNew])
    rw [updateTagOps, if_neg hWE, hW]
    rfl
  · have hWE : stringsetNew wa ≠ stringsetNew ex := by
      intro heq
      exact hne (fun y => by rw [← mem_stringsetNew y ex, ← heq, mem_stringsetNew])
    have hlen : (stringsetNew wa).length ≠ 1 := by
      intro hl
      obtain ⟨w, hw⟩ := List.length_eq_one.mp hl
      exact hnosing ⟨w, fun y => by rw [← mem_stringsetNew y wa, hw]; simp⟩
    have hops : updateTagOps ref (stringsetNew ex) (stringsetNew wa) =
        ((stringsetNew wa).filter (· ∉ stringsetNew ex)).map (addAttributeClaim ref "tag") ++
          ((stringsetNew ex).filter (· ∉ stringsetNew wa)).map (delAttributeClaim ref "tag") := by
      rw [updateTagOps, if_neg hWE, if_neg hlen]
    refine ⟨fun x => ?_, fun x => ?_, ?_, ⟨_, _, hops⟩, fun x hxe hxw c hc => ?_⟩
    · rw [hops]
      simp [addAttributeClaim, delAttributeClaim, setAttributeClaim, List.mem_filter,
        mem_stringsetNew]
    · rw [hops]
      simp [addAttributeClaim, delAttributeClaim, setAttributeClaim, List.mem_filter,
        mem_stringsetNew]
    · rw [hops]
      refine List.Nodup.append ?_ ?_ ?_
      · exact ((List.Pairwise.filter _ (pairwise_stringsetNew wa)).imp
            (fun h => sLt_ne h)).map _ (fun h => by simp [addAttributeClaim])
      · exact ((List.Pairwise.filter _ (pairwise_stringsetNew ex)).imp
            (fun h => sLt_ne h)).map _ (fun h => by simp [delAttributeClaim])
      · intro c hca hcd
        simp only [List.mem_map] at hca hcd
        obtain ⟨a1, _, ha1⟩ := hca
        obtain ⟨a2, _, ha2⟩ := hcd
        rw [← ha1] at ha2
        exact absurd (congrArg Claim.op ha2) (by simp [addAttributeClaim, delAttributeClaim])
    · rw [hops] at hc
      rcases List.mem_append.mp hc with hm | hm <;> simp only [List.mem_map] at hm
      · obtain ⟨a, ha, rfl⟩ := hm
        rw [List.mem_filter] at ha
        intro hv
        simp only [addAttributeClaim] at hv
        rw [hv] at ha
        exact absurd hxe (by simpa [mem_stringsetNew] using ha.2)
      · obtain ⟨a, ha, rfl⟩ := hm
        rw [List.mem_filter] at ha
        intro hv
        simp only [delAttributeClaim] at hv
        rw [hv] at ha
        exact absurd hxw (by simpa [mem_stringsetNew] using ha.2)
  · obtain ⟨s', hok, hcl, _⟩ :=
      applyTagClaims_ok (updateTagOps ref (stringsetNew ex) (stringsetNew wa)) s hs
    exact ⟨s', hok, hcl⟩

theorem claim1_witness :
    updateTagOps "n" (stringsetNew ["a", "b"]) (stringsetNew ["c"]) =
        [setAttributeClaim "n" "tag" "c"] ∧
      updateTagOps "n" (stringsetNew ["a", "b"]) (stringsetNew ["b", "c"]) =
        [addAttributeClaim "n" "tag" "c", delAttributeClaim "n" "tag" "a"] :=
  ⟨(claim1_tag_reconciliation "n" ["a", "b"] ["c"]).2.1 "c" (fun y => by simp)
      (fun h => by simpa using (h "a").mp (by simp)),
    (claim1_tag_reconciliation "n" ["a", "b"] ["b", "c"]).2.2.2.1⟩

/-! ## Codec round-trip lemmas (claim C2) -/

theorem fields_no_key (o : JObj) (hres : ∀ kv ∈ o, kv.1 ∉ reservedKeys)
    (κ : String) (hκ : κ ∈ reservedKeys) : κ ∉ o.keys := by
  intro hmem
  obtain ⟨kv, hkv, hfst⟩ := List.mem_map.mp hmem
  exact hres kv hkv (hfst ▸ hκ)

theorem not_mem_keys_append {o₁ o₂ : JObj} {f : String}
    (h1 : f ∉ o₁.keys) (h2 : f ∉ o₂.keys) : f ∉ (o₁ ++ o₂).keys := by
  unfold JObj.keys at *
  rw [List.map_append]
  simp only [List.mem_append]
  tauto

theorem not_mem_keys_optS {f g v : String} (h : g ≠ f) : g ∉ (optS f v).keys := by
  unfold optS
  split <;> simp [JObj.keys, h]

theorem not_mem_keys_single {f g : String} {v : JValue} (h : g ≠ f) :
    g ∉ JObj.keys [(f, v)] := by
  simp [JObj.keys, h]

theorem not_mem_keys_tagsOpt {g : String} {tags : List String} (h : g ≠ "tags") :
    g ∉ (tagsOpt tags).keys := by
  unfold tagsOpt
  split <;> simp [JObj.keys, h]

theorem JObj.insert_not_mem (o : JObj) (f : String) (v : JValue) (h : f ∉ o.keys) :
    o.insert f v = o ++ [(f, v)] := by
  induction o with
  | nil => rfl
  | cons kv rest ih =>
    obtain ⟨k, w⟩ := kv
    simp only [JObj.keys, List.map_cons, List.mem_cons, not_or] at h
    show JObj.insert ((k, w) :: rest) f v = _
    unfold JObj.insert
    rw [if_neg (fun he => h.1 he.symm)]
    rw [ih (by simpa [JObj.keys] using h.2)]
    rfl

theorem addIfNonEmpty_not_mem (o : JObj) (f v : String) (h : f ∉ o.keys) :
    addIfNonEmpty o f v = o ++ optS f v := by
  unfold addIfNonEmpty optS
  by_cases hv : v = ""
  · rw [if_neg (by simp [hv]), if_pos hv, List.append_nil]
  · rw [if_pos hv, if_neg hv, JObj.insert_not_mem o f _ h]

theorem addIfNonEmpty_empty (o : JObj) (f : String) : addIfNonEmpty o f "" = o := by
  unfold addIfNonEmpty
  simp

theorem tags_insert_shape (o : JObj) (tags : List String) (h : "tags" ∉ o.keys) :
    (if tags ≠ [] then o.insert "tags" (.strs tags) else o) = o ++ tagsOpt tags := by
  unfold tagsOpt
  by_cases ht : tags = []
  · rw [if_neg (by simp [ht]), if_pos ht, List.append_nil]
  · rw [if_pos ht, if_neg ht, JObj.insert_not_mem o _ _ h]

/-- Shape of the JSON encoding for a tiddler with a zero storage handle whose
fields avoid the reserved keys: the field entries, in order, followed by the
fixed tail. -/
theorem encode_shape (t : Tiddler) (hres : ∀ kv ∈ t.Fields, kv.1 ∉ reservedKeys)
    (href : t.Ref = BlobRef.zero) :
    t.ToJSONObject = t.Fields ++ encTail t := by
  unfold Tiddler.ToJSONObject
  dsimp only []
  rw [href]
  rw [show BlobRef.zero.str = "" from rfl]
  rw [addIfNonEmpty_empty]
  rw [JObj.insert_not_mem t.Fields "title" _ (fields_no_key _ hres _ (by decide))]
  rw [JObj.insert_not_mem _ "revision" _
    (not_mem_keys_append (fields_no_key _ hres _ (by decide)) (not_mem_keys_single (by decide)))]
  rw [addIfNonEmpty_not_mem _ "bag" _ (by
    repeat' apply not_mem_keys_append
    all_goals first
      | exact fields_no_key _ hres _ (by decide)
      | exact not_mem_keys_single (by decide)
      | exact not_mem_keys_optS (by decide)
      | exact not_mem_keys_tagsOpt (by decide))]
  rw [addIfNonEmpty_not_mem _ "recipe" _ (by
    repeat' apply not_mem_keys_append
    all_goals first
      | exact fields_no_key _ hres _ (by decide)
      | exact not_mem_keys_single (by decide)
      | exact not_mem_keys_optS (by decide)
      | exact not_mem_keys_tagsOpt (by decide))]
  rw [addIfNonEmpty_not_mem _ "type" _ (by
    repeat' apply not_mem_keys_append
    all_goals first
      | exact fields_no_key _ hres _ (by decide)
      | exact not_mem_keys_single (by decide)
      | exact not_mem_keys_optS (by decide)
      | exact not_mem_keys_tagsOpt (by decide))]
  rw [addIfNonEmpty_not_mem _ "text" _ (by
    repeat' apply not_mem_keys_append
    all_goals first
      | exact fields_no_key _ hres _ (by decide)
      | exact not_mem_keys_single (by decide)
      | exact not_mem_keys_optS (by decide)
      | exact not_mem_keys_tagsOpt (by decide))]
  rw [addIfNonEmpty_not_mem _ "permissions" _ (by
    repeat' apply not_mem_keys_append
    all_goals first
      | exact fields_no_key _ hres _ (by decide)
      | exact not_mem_keys_single (by decide)
      | exact not_mem_keys_optS (by decide)
      | exact not_mem_keys_tagsOpt (by decide))]
  rw [addIfNonEmpty_not_mem _ "created" _ (by
    repeat' apply not_mem_keys_append
    all_goals first
      | exact fields_no_key _ hres _ (by decide)
      | exact not_mem_keys_single (by decide)
      | exact not_mem_keys_optS (by decide)
      | exact not_mem_keys_tagsOpt (by decide))]
  rw [addIfNonEmpty_not_mem _ "creator" _ (by
    repeat' apply not_mem_keys_append
    all_goals first
      | exact fields_no_key _ hres _ (by decide)
      | exact not_mem_keys_single (by decide)
      | exact not_mem_keys_optS (by decide)
      | exact not_mem_keys_tagsOpt (by decide))]
  rw [addIfNonEmpty_not_mem _ "modified" _ (by
    repeat' apply not_mem_keys_append
    all_goals first
      | exact fields_no_key _ hres _ (by decide)
      | exact not_mem_keys_single (by decide)
      | exact not_mem_keys_optS (by decide)
      | exact not_mem_keys_tagsOpt (by decide))]
  rw [addIfNonEmpty_not_mem _ "modifier" _ (by
    repeat' apply not_mem_keys_append
    all_goals first
      | exact fields_no_key _ hres _ (by decide)
      | exact not_mem_keys_single (by decide)
      | exact not_mem_keys_optS (by decide)
      | exact not_mem_keys_tagsOpt (by decide))]
  rw [tags_insert_shape _ _ (by
    repeat' apply not_mem_keys_append
    all_goals first
      | exact fields_no_key _ hres _ (by decide)
      | exact not_mem_keys_single (by decide)
      | exact not_mem_keys_optS (by decide)
      | exact not_mem_keys_tagsOpt (by decide))]
  unfold encTail GoTime.marshalText
  simp [List.append_assoc]

theorem mergeStep_default (t : TiddlerMeta) (kv : String × JValue) (h : kv.1 ∉ reservedKeys) :
    mergeStep t kv = { t with Fields := t.Fields.insert kv.1 kv.2 } := by
  simp only [reservedKeys, List.mem_cons, List.not_mem_nil, or_false, not_or] at h
  obtain ⟨h1, h2, h3, h4, h5, h6, h7, h8, h9, h10, h11, h12, h13⟩ := h
  unfold mergeStep
  split
  all_goals simp_all

theorem foldl_mergeStep_fields (fs : JObj) : ∀ t : TiddlerMeta,
    (∀ kv ∈ fs, kv.1 ∉ reservedKeys) →
    List.foldl mergeStep t fs =
      { t with Fields := List.foldl (fun o (kv : String × JValue) => o.insert kv.1 kv.2) t.Fields fs } := by
  induction fs with
  | nil => intro t _; rfl
  | cons kv rest ih =>
    intro t h
    rw [List.foldl_cons, List.foldl_cons,
      mergeStep_default t kv (h kv (List.mem_cons_self kv rest)),
      ih _ (fun kv2 h2 => h kv2 (List.mem_cons_of_mem _ h2))]

theorem foldl_insert_fresh (fs : JObj) : ∀ o : JObj, (∀ kv ∈ fs, kv.1 ∉ o.keys) →
    fs.keys.Nodup →
    List.foldl (fun o (kv : String × JValue) => o.insert kv.1 kv.2) o fs = o ++ fs := by
  induction fs with
  | nil => intro o _ _; simp
  | cons kv rest ih =>
    intro o h hnd
    rw [List.foldl_cons, JObj.insert_not_mem o kv.1 kv.2 (h kv (List.mem_cons_self kv rest))]
    unfold JObj.keys at hnd
    rw [List.map_cons, List.nodup_cons] at hnd
    rw [ih (o ++ [(kv.1, kv.2)]) ?_ hnd.2]
    · simp
    · intro kv2 h2
      refine not_mem_keys_append (h kv2 (List.mem_cons_of_mem _ h2)) ?_
      intro hm
      simp only [JObj.keys, List.map_cons, List.map_nil, List.mem_singleton] at hm
      exact hnd.1 (hm ▸ List.mem_map_of_mem Prod.fst h2)

theorem wire_self (o : JObj) (h : ∀ kv ∈ o, kv.2.wire = kv.2) : o.wire = o := by
  induction o with
  | nil => rfl
  | cons kv rest ih =>
    unfold JObj.wire
    rw [List.map_cons]
    rw [show (kv.1, kv.2.wire) = kv from by rw [h kv (List.mem_cons_self kv rest)]]
    rw [show List.map (fun p : String × JValue => (p.1, p.2.wire)) rest = JObj.wire rest from rfl]
    rw [ih (fun kv2 h2 => h kv2 (List.mem_cons_of_mem _ h2))]

theorem optS_wire (f v : String) : (optS f v).wire = optS f v := by
  unfold optS
  split <;> rfl

theorem map_goStr_str (l : List String) : (l.map JAtom.str).map JAtom.goStr = l := by
  induction l with
  | nil => rfl
  | cons x xs ih => simp [JAtom.goStr, ih]

theorem mergeStep_revision_valid (t : TiddlerMeta) (v : String) (hv : validRFC3339 v = true) :
    mergeStep t ("revision", .atom (.str v)) = { t with Revision := ⟨v⟩ } := by
  show (match goTimeParse ((JValue.atom (JAtom.str v)).goString) with
        | some rev => { t with Revision := rev }
        | none => t) = _
  rw [show (JValue.atom (JAtom.str v)).goString = v from rfl]
  unfold goTimeParse
  rw [if_pos hv]

theorem fold_optS_bag (t : TiddlerMeta) (v : String) (h : t.Bag = "") :
    List.foldl mergeStep t (optS "bag" v) = { t with Bag := v } := by
  unfold optS
  by_cases hv : v = ""
  · rw [if_pos hv, List.foldl_nil, hv, ← h]
  · rw [if_neg hv, List.foldl_cons, List.foldl_nil]
    rfl

theorem fold_optS_recipe (t : TiddlerMeta) (v : String) (h : t.Recipe = "") :
    List.foldl mergeStep t (optS "recipe" v) = { t with Recipe := v } := by
  unfold optS
  by_cases hv : v = ""
  · rw [if_pos hv, List.foldl_nil, hv, ← h]
  · rw [if_neg hv, List.foldl_cons, List.foldl_nil]
    rfl

theorem fold_optS_type (t : TiddlerMeta) (v : String) (h : t.Type' = "") :
    List.foldl mergeStep t (optS "type" v) = { t with Type' := v } := by
  unfold optS
  by_cases hv : v = ""
  · rw [if_pos hv, List.foldl_nil, hv, ← h]
  · rw [if_neg hv, List.foldl_cons, List.foldl_nil]
    rfl

theorem fold_optS_permissions (t : TiddlerMeta) (v : String) (h : t.Permissions = "") :
    List.foldl mergeStep t (optS "permissions" v) = { t with Permissions := v } := by
  unfold optS
  by_cases hv : v = ""
  · rw [if_pos hv, List.foldl_nil, hv, ← h]
  · rw [if_neg hv, List.foldl_cons, List.foldl_nil]
    rfl

theorem fold_optS_created (t : TiddlerMeta) (v : String) (h : t.Created = "") :
    List.foldl mergeStep t (optS "created" v) = { t with Created := v } := by
  unfold optS
  by_cases hv : v = ""
  · rw [if_pos hv, List.foldl_nil, hv, ← h]
  · rw [if_neg hv, List.foldl_cons, List.foldl_nil]
    rfl

theorem fold_optS_creator (t : TiddlerMeta) (v : String) (h : t.Creator = "") :
    List.foldl mergeStep t (optS "creator" v) = { t with Creator := v } := by
  unfold optS
  by_cases hv : v = ""
  · rw [if_pos hv, List.foldl_nil, hv, ← h]
  · rw [if_neg hv, List.foldl_cons, List.foldl_nil]
    rfl

theorem fold_optS_modified (t : TiddlerMeta) (v : String) (h : t.Modified = "") :
    List.foldl mergeStep t (optS "modified" v) = { t with Modified := v } := by
  unfold optS
  by_cases hv : v = ""
  · rw [if_pos hv, List.foldl_nil, hv, ← h]
  · rw [if_neg hv, List.foldl_cons, List.foldl_nil]
    rfl

theorem fold_optS_modifier (t : TiddlerMeta) (v : String) (h : t.Modifier = "") :
    List.foldl mergeStep t (optS "modifier" v) = { t with Modifier := v } := by
  unfold optS
  by_cases hv : v = ""
  · rw [if_pos hv, List.foldl_nil, hv, ← h]
  · rw [if_neg hv, List.foldl_cons, List.foldl_nil]
    rfl

theorem fold_optS_text (t : TiddlerMeta) (v : String) :
    List.foldl mergeStep t (optS "text" v) = t := by
  unfold optS
  by_cases hv : v = ""
  · rw [if_pos hv, List.foldl_nil]
  · rw [if_neg hv, List.foldl_cons, List.foldl_nil]
    rfl

theorem fold_tags_wire (t : TiddlerMeta) (tags : List String) (h : t.Tags = []) :
    List.foldl mergeStep t ((tagsOpt tags).wire) = { t with Tags := tags } := by
  unfold tagsOpt
  by_cases ht : tags = []
  · rw [if_pos ht]
    show t = _
    rw [ht, ← h]
  · rw [if_neg ht]
    show List.foldl mergeStep t [("tags", JValue.wire (.strs tags))] = _
    rw [show JValue.wire (.strs tags) = .arr (tags.map JAtom.str) from rfl,
      List.foldl_cons, List.foldl_nil]
    show { t with Tags := (tags.map JAtom.str).map JAtom.goStr } = _
    rw [map_goStr_str]

theorem lookup_cons (k : String) (v : JValue) (rest : JObj) (f : String) :
    JObj.lookup ((k, v) :: rest) f = if k = f then some v else JObj.lookup rest f := rfl

theorem wire_atom (a : JAtom) : JValue.wire (.atom a) = .atom a := rfl

theorem map_wire_optS (f v : String) :
    List.map (fun p : String × JValue => (p.1, p.2.wire)) (optS f v) = optS f v := by
  have h := optS_wire f v
  unfold JObj.wire at h
  exact h

theorem lookup_append_left {o₁ o₂ : JObj} {f : String} (h : f ∉ o₁.keys) :
    JObj.lookup (o₁ ++ o₂) f = JObj.lookup o₂ f := by
  induction o₁ with
  | nil => rfl
  | cons kv rest ih =>
    simp only [JObj.keys, List.map_cons, List.mem_cons, not_or] at h
    obtain ⟨k, w⟩ := kv
    rw [List.cons_append, lookup_cons, if_neg (fun he => h.1 he.symm)]
    exact ih (by simpa [JObj.keys] using h.2)

theorem lookup_eq_none_of_not_mem (o : JObj) (f : String) (h : f ∉ o.keys) :
    JObj.lookup o f = none := by
  induction o with
  | nil => rfl
  | cons kv rest ih =>
    simp only [JObj.keys, List.map_cons, List.mem_cons, not_or] at h
    obtain ⟨k, w⟩ := kv
    rw [lookup_cons, if_neg (fun he => h.1 he.symm)]
    exact ih (by simpa [JObj.keys] using h.2)

theorem keys_wire (o : JObj) : (o.wire).keys = o.keys := by
  unfold JObj.wire JObj.keys
  rw [List.map_map]
  rfl

theorem not_mem_keys_encTail {g : String} (t : Tiddler)
    (h1 : g ≠ "title") (h2 : g ≠ "revision") (h3 : g ≠ "bag") (h4 : g ≠ "recipe")
    (h5 : g ≠ "type") (h6 : g ≠ "text") (h7 : g ≠ "permissions") (h8 : g ≠ "created")
    (h9 : g ≠ "creator") (h10 : g ≠ "modified") (h11 : g ≠ "modifier") (h12 : g ≠ "tags") :
    g ∉ (encTail t).keys := by
  unfold encTail
  repeat' apply not_mem_keys_append
  all_goals first
    | exact not_mem_keys_optS (by assumption)
    | exact not_mem_keys_tagsOpt (by assumption)
    | (simp only [JObj.keys, List.map_cons, List.map_nil, List.mem_cons, List.not_mem_nil,
        or_false, not_or]
       exact ⟨h1, h2⟩)

theorem lookup_text_encTail (t : Tiddler) :
    JObj.lookup ((encTail t).wire) "text" =
      if t.Text = "" then none else some (.atom (.str t.Text)) := by
  have hw : (encTail t).wire =
      [("title", JValue.atom (.str t.Title)), ("revision", JValue.atom (.str t.Revision.rep))] ++
        optS "bag" t.Bag ++ optS "recipe" t.Recipe ++ optS "type" t.Type' ++
        optS "text" t.Text ++ optS "permissions" t.Permissions ++ optS "created" t.Created ++
        optS "creator" t.Creator ++ optS "modified" t.Modified ++ optS "modifier" t.Modifier ++
        (tagsOpt t.Tags).wire := by
    unfold encTail JObj.wire
    simp only [List.map_append, List.map_cons, List.map_nil, map_wire_optS, wire_atom]
  rw [hw]
  simp only [List.append_assoc]
  rw [lookup_append_left (by
    simp only [JObj.keys, List.map_cons, List.map_nil, List.mem_cons, List.not_mem_nil,
      or_false, not_or]
    exact ⟨by decide, by decide⟩)]
  rw [lookup_append_left (not_mem_keys_optS (by decide)),
    lookup_append_left (not_mem_keys_optS (by decide)),
    lookup_append_left (not_mem_keys_optS (by decide))]
  by_cases hx : t.Text = ""
  · rw [if_pos hx, show optS "text" t.Text = [] from by rw [hx]; rfl, List.nil_append]
    rw [lookup_append_left (not_mem_keys_optS (by decide)),
      lookup_append_left (not_mem_keys_optS (by decide)),
      lookup_append_left (not_mem_keys_optS (by decide)),
      lookup_append_left (not_mem_keys_optS (by decide)),
      lookup_append_left (not_mem_keys_optS (by decide))]
    refine lookup_eq_none_of_not_mem _ _ ?_
    rw [keys_wire]
    exact not_mem_keys_tagsOpt (by decide)
  · rw [if_neg hx, show optS "text" t.Text = [("text", JValue.atom (.str t.Text))] from by
      unfold optS; rw [if_neg hx]]
    rfl

theorem mergeStep_title (t : TiddlerMeta) (v : String) :
    mergeStep t ("title", .atom (.str v)) = { t with Title := v } := rfl

/-- Claim C2 (amended): decoding the JSON wire form of the encoding reproduces
the tiddler for every JSON-representable field except the storage ref: the
round trip holds for every tiddler with a non-empty title, a zero storage
handle (and zero content handles, which the JSON format cannot carry), a
well-formed revision, and fields that avoid the reserved keys and hold
JSON-native values. -/
theorem claim2_roundtrip (t : Tiddler)
    (hT : t.Title ≠ "")
    (href : t.Ref = BlobRef.zero) (htx : t.TextRef = BlobRef.zero)
    (hmx : t.MetaRef = BlobRef.zero)
    (hv : validRFC3339 t.Revision.rep = true)
    (hres : ∀ kv ∈ t.Fields, kv.1 ∉ reservedKeys)
    (hnd : t.Fields.keys.Nodup)
    (hwire : ∀ kv ∈ t.Fields, kv.2.wire = kv.2) :
    Tiddler.UnmarshalJSON (some (t.ToJSONObject).wire) = .ok t := by
  rw [encode_shape t hres href]
  have hW : JObj.wire (t.Fields ++ encTail t) = t.Fields ++ (encTail t).wire := by
    unfold JObj.wire
    rw [List.map_append]
    have hws := wire_self t.Fields hwire
    unfold JObj.wire at hws
    rw [hws]
  rw [hW]
  show Except.ok (Tiddler.empty.MergeFrom (t.Fields ++ (encTail t).wire)) = Except.ok t
  congr 1
  have hfields : JObj.lookup (t.Fields ++ (encTail t).wire) "fields" = none := by
    rw [lookup_append_left (fields_no_key _ hres _ (by decide))]
    refine lookup_eq_none_of_not_mem _ _ ?_
    rw [keys_wire]
    exact not_mem_keys_encTail t (by decide) (by decide) (by decide) (by decide) (by decide)
      (by decide) (by decide) (by decide) (by decide) (by decide) (by decide) (by decide)
  have htext : JObj.lookup (t.Fields ++ (encTail t).wire) "text" =
      if t.Text = "" then none else some (.atom (.str t.Text)) := by
    rw [lookup_append_left (fields_no_key _ hres _ (by decide))]
    exact lookup_text_encTail t
  have hwt : (encTail t).wire =
      [("title", JValue.atom (.str t.Title)), ("revision", JValue.atom (.str t.Revision.rep))] ++
        (optS "bag" t.Bag ++ (optS "recipe" t.Recipe ++ (optS "type" t.Type' ++
        (optS "text" t.Text ++ (optS "permissions" t.Permissions ++ (optS "created" t.Created ++
        (optS "creator" t.Creator ++ (optS "modified" t.Modified ++
        (optS "modifier" t.Modifier ++ (tagsOpt t.Tags).wire))))))))) := by
    unfold encTail JObj.wire
    simp only [List.map_append, List.map_cons, List.map_nil, map_wire_optS, wire_atom]
    simp [List.append_assoc]
  unfold Tiddler.MergeFrom TiddlerMeta.MergeFrom
  rw [hfields, htext]
  dsimp only []
  rw [List.foldl_append]
  rw [foldl_mergeStep_fields t.Fields _ hres,
    foldl_insert_fresh t.Fields [] (by intro kv _; simp [JObj.keys]) hnd,
    List.nil_append]
  rw [hwt]
  simp only [List.foldl_append, List.foldl_cons, List.foldl_nil]
  rw [mergeStep_title, mergeStep_revision_valid _ _ hv]
  rw [fold_optS_bag _ _ rfl]
  rw [fold_optS_recipe _ _ rfl]
  rw [fold_optS_type _ _ rfl]
  rw [fold_optS_text]
  rw [fold_optS_permissions _ _ rfl]
  rw [fold_optS_created _ _ rfl]
  rw [fold_optS_creator _ _ rfl]
  rw [fold_optS_modified _ _ rfl]
  rw [fold_optS_modifier _ _ rfl]
  rw [fold_tags_wire _ _ rfl]
  obtain ⟨⟨⟨R, Tx, Mx, Ti, B, Rc, Tg, Rv⟩, F, Ty, P, Cd, Cr, Mo, Md⟩, Txt⟩ := t
  simp only at href htx hmx ⊢
  subst href htx hmx
  by_cases hx : Txt = ""
  · rw [if_pos hx]
    subst hx
    rfl
  · rw [if_neg hx]
    rfl

/-- Claim C2 counterexample: the round trip is broken for a tiddler whose
storage ref is valid. `ToJSONObject` emits the ref under the reserved key
`tiddlykeep-ref`, but `UnmarshalJSON` has no case for that key and folds it
into `Fields`, so the decoded tiddler has a zero `Ref` and a spurious field
rather than equalling the original. -/
theorem claim2_counterexample :
    Tiddler.UnmarshalJSON (some ((Tiddler.ToJSONObject refTiddler).wire)) =
      .ok { Tiddler.empty with
            Title := "x",
            Fields := [("tiddlykeep-ref", JValue.atom (JAtom.str "sha224-aa"))] } ∧
    Tiddler.UnmarshalJSON (some ((Tiddler.ToJSONObject refTiddler).wire)) ≠
      .ok refTiddler := by
  constructor
  · decide
  · decide

/-- Witness for the amended C2 round trip: a concrete tiddler with title, bag,
text, tags, revision, type, a custom field and a creator survives the JSON
round trip. -/
theorem claim2_witness :
    rtTiddler.Title ≠ "" ∧
    Tiddler.UnmarshalJSON (some ((Tiddler.ToJSONObject rtTiddler).wire)) = .ok rtTiddler :=
  ⟨by decide, claim2_roundtrip rtTiddler (by decide) (by decide) (by decide) (by decide)
    (by decide) (by decide) (by decide) (by decide)⟩

/-! ## Association-list and blob-store facts used for the put idempotence -/

theorem alookup_none_of_not_mem {α : Type} (l : List (String × α)) (n : String)
    (h : n ∉ l.map Prod.fst) : alookup l n = none := by
  induction l with
  | nil => rfl
  | cons kv rest ih =>
    simp only [List.map_cons, List.mem_cons, not_or] at h
    obtain ⟨k, v⟩ := kv
    unfold alookup
    rw [if_neg (fun he => h.1 he.symm)]
    exact ih h.2

theorem alookup_first {α : Type} (l1 l2 : List (String × α)) (n : String) (a : α)
    (h : n ∉ l1.map Prod.fst) : alookup (l1 ++ (n, a) :: l2) n = some a := by
  induction l1 with
  | nil => exact if_pos rfl
  | cons kv rest ih =>
    simp only [List.map_cons, List.mem_cons, not_or] at h
    obtain ⟨k, v⟩ := kv
    rw [List.cons_append]
    unfold alookup
    rw [if_neg (fun he => h.1 he.symm)]
    exact ih h.2

theorem aset_first {α : Type} (l1 l2 : List (String × α)) (n : String) (a v : α)
    (h : n ∉ l1.map Prod.fst) : aset (l1 ++ (n, a) :: l2) n v = l1 ++ (n, v) :: l2 := by
  induction l1 with
  | nil => exact if_pos rfl
  | cons kv rest ih =>
    simp only [List.map_cons, List.mem_cons, not_or] at h
    obtain ⟨k, w⟩ := kv
    rw [List.cons_append]
    unfold aset
    rw [if_neg (fun he => h.1 he.symm)]
    rw [List.cons_append, ih h.2]

theorem aset_append_of_not_mem {α : Type} (l : List (String × α)) (n : String) (v : α)
    (h : n ∉ l.map Prod.fst) : aset l n v = l ++ [(n, v)] := by
  induction l with
  | nil => rfl
  | cons kv rest ih =>
    simp only [List.map_cons, List.mem_cons, not_or] at h
    obtain ⟨k, w⟩ := kv
    unfold aset
    rw [if_neg (fun he => h.1 he.symm), ih h.2]
    rfl

theorem alookup_eq_some_split {α : Type} (l : List (String × α)) (n : String) (a : α)
    (h : alookup l n = some a) :
    ∃ l1 l2, l = l1 ++ (n, a) :: l2 ∧ n ∉ l1.map Prod.fst := by
  induction l with
  | nil => exact absurd h (by simp [alookup])
  | cons kv rest ih =>
    obtain ⟨k, v⟩ := kv
    unfold alookup at h
    by_cases hk : k = n
    · rw [if_pos hk] at h
      exact ⟨[], rest, by rw [hk, Option.some_inj.mp h]; rfl, by simp⟩
    · rw [if_neg hk] at h
      obtain ⟨l1, l2, heq, hmem⟩ := ih h
      refine ⟨(k, v) :: l1, l2, by rw [List.cons_append, heq], ?_⟩
      simp only [List.map_cons, List.mem_cons, not_or]
      exact ⟨fun he => hk he.symm, hmem⟩

theorem filter_split {α : Type} (p : α → Bool) (l : List α) (b : α) (bs : List α)
    (h : l.filter p = b :: bs) :
    ∃ l1 l2, l = l1 ++ b :: l2 ∧ (∀ x ∈ l1, p x = false) ∧ p b = true ∧
      l2.filter p = bs := by
  induction l with
  | nil => exact absurd h (by simp)
  | cons x rest ih =>
    by_cases hx : p x
    · rw [List.filter_cons_of_pos hx] at h
      obtain ⟨hxb, hbs⟩ := List.cons.inj h
      exact ⟨[], rest, by rw [hxb]; rfl, by simp, hxb ▸ hx, hbs⟩
    · rw [List.filter_cons_of_neg (by simpa using hx)] at h
      obtain ⟨l1, l2, heq, hl1, hb, hl2⟩ := ih h
      exact ⟨x :: l1, l2, by rw [List.cons_append, heq],
        fun y hy => by
          rcases List.mem_cons.mp hy with rfl | hy
          · simpa using hx
          · exact hl1 y hy,
        hb, hl2⟩

theorem findBlobByContent_mono {l : List (String × BlobData)} {c : BlobData} {h : String}
    (hf : findBlobByContent l c = some h) (l2 : List (String × BlobData)) :
    findBlobByContent (l ++ l2) c = some h := by
  induction l with
  | nil => exact absurd hf (by simp [findBlobByContent])
  | cons kv rest ih =>
    obtain ⟨k, d⟩ := kv
    rw [List.cons_append]
    unfold findBlobByContent at hf ⊢
    by_cases hd : d = c
    · rw [if_pos hd] at hf ⊢
      exact hf
    · rw [if_neg hd] at hf ⊢
      exact ih hf

theorem findBlobByContent_mem {l : List (String × BlobData)} {c : BlobData} {h : String}
    (hf : findBlobByContent l c = some h) : h ∈ l.map Prod.fst := by
  induction l with
  | nil => exact absurd hf (by simp [findBlobByContent])
  | cons kv rest ih =>
    obtain ⟨k, d⟩ := kv
    unfold findBlobByContent at hf
    by_cases hd : d = c
    · rw [if_pos hd] at hf
      simp [Option.some_inj.mp hf]
    · rw [if_neg hd] at hf
      simp [ih hf]

theorem cas_ne_empty (x : String) : ("cas-" ++ x) ≠ "" := by
  intro he
  have := congrArg String.data he
  rw [String.data_append] at this
  simp at this

theorem findBlobByContent_append_none {l : List (String × BlobData)} {c : BlobData}
    (hf : findBlobByContent l c = none) (l2 : List (String × BlobData)) :
    findBlobByContent (l ++ l2) c = findBlobByContent l2 c := by
  induction l with
  | nil => rfl
  | cons kv rest ih =>
    obtain ⟨k, d⟩ := kv
    rw [List.cons_append]
    show (if d = c then some k else findBlobByContent (rest ++ l2) c) = findBlobByContent l2 c
    unfold findBlobByContent at hf
    by_cases hd : d = c
    · rw [if_pos hd] at hf
      exact absurd hf (by simp)
    · rw [if_neg hd] at hf
      rw [if_neg hd]
      exact ih hf

theorem uploadContent_spec {s : StoreState} {d : BlobData} {r : BlobRef} {s' : StoreState}
    (h : uploadContent s d = (r, s')) (hwfb : "" ∉ s.blobs.map Prod.fst) :
    (∃ tl, s'.blobs = s.blobs ++ tl) ∧ findBlobByContent s'.blobs d = some r.val ∧
      r.val ≠ "" ∧ s'.nodes = s.nodes ∧ s'.claims = s.claims ∧ s'.nextNode = s.nextNode ∧
      s'.queryFails = s.queryFails ∧ s'.describeFails = s.describeFails ∧
      s'.uploadFails = s.uploadFails ∧ s'.signFails = s.signFails := by
  unfold uploadContent at h
  cases hf : findBlobByContent s.blobs d with
  | some h0 =>
    rw [hf] at h
    obtain ⟨hr, hs⟩ := Prod.mk.inj h
    subst hs
    refine ⟨⟨[], by simp⟩, ?_, ?_, rfl, rfl, rfl, rfl, rfl, rfl, rfl⟩
    · rw [← hr]
      exact hf
    · rw [← hr]
      exact fun he => hwfb (he ▸ findBlobByContent_mem hf)
  | none =>
    rw [hf] at h
    obtain ⟨hr, hs⟩ := Prod.mk.inj h
    subst hs
    refine ⟨⟨_, rfl⟩, ?_, ?_, rfl, rfl, rfl, rfl, rfl, rfl, rfl⟩
    · rw [findBlobByContent_append_none hf]
      rw [← hr]
      unfold findBlobByContent
      rw [if_pos rfl]
    · rw [← hr]
      exact cas_ne_empty _

theorem uploadContent_found {s : StoreState} {d : BlobData} {h : String}
    (hf : findBlobByContent s.blobs d = some h) : uploadContent s d = (⟨h⟩, s) := by
  unfold uploadContent
  rw [hf]

theorem parseOrZero_val (r : BlobRef) : BlobRef.parseOrZero r.val = r := rfl

theorem uploadFile_clean (s : StoreState) (b : List Nat) (hu : s.uploadFails = false) :
    uploadFile s b = .ok (uploadContent s (.file b)) := by
  simp [uploadFile, hu]

theorem uploadBlob_clean (s : StoreState) (o : JObj) (hu : s.uploadFails = false) :
    uploadBlob s o = .ok (uploadContent s (.jsonBytes o)) := by
  simp [uploadBlob, hu]

/-! ## Effect of signed claims on the node attribute map -/

theorem sign_claim_split (s : StoreState) (c : Claim) (n : String)
    (l1 l2 : List (String × Attrs)) (a : Attrs)
    (hcn : c.node = n) (hop : c.op ≠ ClaimOp.delNode) (hsg : s.signFails = false)
    (hnodes : s.nodes = l1 ++ (n, a) :: l2) (hn1 : n ∉ l1.map Prod.fst) :
    uploadAndSignBlob s c =
      .ok { s with nodes := l1 ++ (n, claimAttrStep a c) :: l2,
                   claims := s.claims ++ [c] } := by
  have hla : alookup s.nodes c.node = some a := by
    rw [hcn, hnodes]
    exact alookup_first _ _ _ _ hn1
  have hsa : ∀ v, aset s.nodes c.node v = l1 ++ (n, v) :: l2 := by
    intro v
    rw [hcn, hnodes]
    exact aset_first _ _ _ _ _ hn1
  cases hco : c.op
  case delNode => exact absurd hco hop
  all_goals
    unfold uploadAndSignBlob applyClaim claimAttrStep
  all_goals
    rw [if_neg (by simp [hsg]), hco]
  all_goals
    dsimp only []
  all_goals
    rw [hla]
  all_goals
    dsimp only [Option.getD]
  all_goals
    rw [hsa]

theorem sign_claim_absent (s : StoreState) (c : Claim) (n : String)
    (hcn : c.node = n) (hop : c.op ≠ ClaimOp.delNode) (hsg : s.signFails = false)
    (hn : n ∉ s.nodes.map Prod.fst) :
    uploadAndSignBlob s c =
      .ok { s with nodes := s.nodes ++ [(n, claimAttrStep {} c)],
                   claims := s.claims ++ [c] } := by
  have hla : alookup s.nodes c.node = none := by
    rw [hcn]
    exact alookup_none_of_not_mem _ _ hn
  have hsa : ∀ v, aset s.nodes c.node v = s.nodes ++ [(n, v)] := by
    intro v
    rw [hcn]
    exact aset_append_of_not_mem _ _ _ hn
  cases hco : c.op
  case delNode => exact absurd hco hop
  all_goals
    unfold uploadAndSignBlob applyClaim claimAttrStep
  all_goals
    rw [if_neg (by simp [hsg]), hco]
  all_goals
    dsimp only []
  all_goals
    rw [hla]
  all_goals
    dsimp only [Option.getD]
  all_goals
    rw [hsa]

theorem applyTagClaims_split (n : String) (cs : List Claim)
    (hall : ∀ c ∈ cs, c.node = n ∧ c.op ≠ ClaimOp.delNode) :
    ∀ (s : StoreState) (l1 l2 : List (String × Attrs)) (a : Attrs),
      s.signFails = false → s.nodes = l1 ++ (n, a) :: l2 → n ∉ l1.map Prod.fst →
      applyTagClaims s cs =
        .ok { s with nodes := l1 ++ (n, List.foldl claimAttrStep a cs) :: l2,
                     claims := s.claims ++ cs } := by
  induction cs with
  | nil =>
    intro s l1 l2 a hsg hnodes hn1
    rw [List.foldl_nil, List.append_nil, ← hnodes]
    rfl
  | cons c rest ih =>
    intro s l1 l2 a hsg hnodes hn1
    obtain ⟨hcn, hcop⟩ := hall c (by simp)
    unfold applyTagClaims
    rw [sign_claim_split s c n l1 l2 a hcn hcop hsg hnodes hn1]
    dsimp only []
    rw [ih (fun c hc => hall c (by simp [hc]))
      { s with nodes := l1 ++ (n, claimAttrStep a c) :: l2, claims := s.claims ++ [c] }
      l1 l2 (claimAttrStep a c) hsg rfl hn1]
    rw [List.append_assoc]
    rfl

theorem claimAttrStep_set_title (a : Attrs) (m v : String) :
    claimAttrStep a (setAttributeClaim m "title" v) = { a with title := [v] } := rfl

theorem claimAttrStep_set_bag (a : Attrs) (m v : String) :
    claimAttrStep a (setAttributeClaim m "tiddlerBag" v) = { a with tiddlerBag := [v] } := rfl

theorem claimAttrStep_set_vis (a : Attrs) (m v : String) :
    claimAttrStep a (setAttributeClaim m "camliDefVis" v) = { a with camliDefVis := [v] } := rfl

theorem claimAttrStep_set_content (a : Attrs) (m v : String) :
    claimAttrStep a (setAttributeClaim m "camliContent" v) = { a with camliContent := [v] } := rfl

theorem claimAttrStep_set_meta (a : Attrs) (m v : String) :
    claimAttrStep a (setAttributeClaim m "tiddlerMeta" v) = { a with tiddlerMeta := [v] } := rfl

theorem claimAttrStep_tag (a : Attrs) (c : Claim) (hc : c.attr = "tag") :
    claimAttrStep a c = { a with tag := tagValStep a.tag c } := by
  unfold claimAttrStep tagValStep
  rw [hc]
  cases c.op <;> rfl

theorem foldl_tag_claims (cs : List Claim) (hall : ∀ c ∈ cs, c.attr = "tag") :
    ∀ a : Attrs, List.foldl claimAttrStep a cs =
      { a with tag := List.foldl tagValStep a.tag cs } := by
  induction cs with
  | nil => intro a; rfl
  | cons c rest ih =>
    intro a
    rw [List.foldl_cons, List.foldl_cons, claimAttrStep_tag a c (hall c (by simp)),
      ih (fun c hc => hall c (by simp [hc]))]

theorem updateTagOps_shape (n : String) (ex wa : List String) :
    ∀ c ∈ updateTagOps n ex wa, c.node = n ∧ c.attr = "tag" ∧ c.op ≠ ClaimOp.delNode := by
  intro c hc
  unfold updateTagOps at hc
  split at hc
  · exact absurd hc (by simp)
  · split at hc
    · simp only [List.mem_singleton] at hc
      subst hc
      exact ⟨rfl, rfl, fun h => ClaimOp.noConfusion h⟩
    · rcases List.mem_append.mp hc with hm | hm <;> obtain ⟨x, _, rfl⟩ := List.mem_map.mp hm
      · exact ⟨rfl, rfl, fun h => ClaimOp.noConfusion h⟩
      · exact ⟨rfl, rfl, fun h => ClaimOp.noConfusion h⟩

theorem fold_tagVal_adds (n : String) (adds : List String) :
    ∀ w, List.foldl tagValStep w (adds.map (addAttributeClaim n "tag")) = w ++ adds := by
  induction adds with
  | nil => intro w; simp
  | cons x rest ih =>
    intro w
    rw [List.map_cons, List.foldl_cons,
      show tagValStep w (addAttributeClaim n "tag" x) = w ++ [x] from rfl, ih,
      List.append_assoc]
    rfl

theorem mem_fold_tagVal_dels (n : String) (dels : List String) :
    ∀ w x, x ∈ List.foldl tagValStep w (dels.map (delAttributeClaim n "tag")) ↔
      x ∈ w ∧ x ∉ dels := by
  induction dels with
  | nil => intro w x; simp
  | cons d rest ih =>
    intro w x
    rw [List.map_cons, List.foldl_cons,
      show tagValStep w (delAttributeClaim n "tag" d) = w.filter (· ≠ d) from rfl, ih]
    simp only [List.mem_filter, List.mem_cons, not_or, decide_eq_true_eq]
    tauto

theorem stringsetNew_idem (l : List String) : stringsetNew (stringsetNew l) = stringsetNew l :=
  stringsetNew_eq_of_same_mem l (stringsetNew l) (fun x => (mem_stringsetNew x l).symm)

theorem tag_reconcile_fold (n : String) (vs0 ts : List String) :
    stringsetNew (List.foldl tagValStep vs0
      (updateTagOps n (stringsetNew vs0) (stringsetNew ts))) = stringsetNew ts := by
  unfold updateTagOps
  split
  · rename_i heq
    rw [List.foldl_nil, ← heq]
  · split
    · rename_i hlen
      obtain ⟨w, hw⟩ := List.length_eq_one.mp hlen
      rw [hw]
      rw [show List.foldl tagValStep vs0 [setAttributeClaim n "tag" (getFirst [w])] = [w]
        from rfl]
      rw [show stringsetNew [w] = [w] from rfl]
    · rw [List.foldl_append, fold_tagVal_adds]
      refine stringsetNew_eq_of_same_mem ts _ (fun x => ?_)
      rw [mem_fold_tagVal_dels]
      simp only [List.mem_append, List.mem_filter, mem_stringsetNew, decide_eq_true_eq]
      constructor
      · intro hx
        refine ⟨?_, fun hd => hd.2 hx⟩
        by_cases hv : x ∈ vs0
        · exact Or.inl hv
        · exact Or.inr ⟨hx, fun hc => hv hc⟩
      · rintro ⟨hvor, hnd⟩
        rcases hvor with hv | ⟨hts, _⟩
        · by_contra hts
          exact hnd ⟨hv, hts⟩
        · exact hts

/-! ## Deterministic resolution runs under a healthy store -/

theorem resolveRef_valid_found (k : TiddlyKeep) (s : StoreState) (r : TiddlerRef) (cm : Bool)
    (hTz : r.TextRef = BlobRef.zero) (hV : r.Ref.Valid = true) (hdf : s.describeFails = false)
    (a : Attrs) (ha : alookup s.nodes r.Ref.val = some a) :
    ResolveRef k s r cm = .ok (constructTiddlerRef r.Ref.val (some a), s) := by
  unfold ResolveRef
  rw [if_neg (by rw [hTz]; simp [BlobRef.Valid, BlobRef.zero])]
  rw [show getTiddlerPermanode k s r cm = .ok (r.Ref.val, some a, s) from by
    unfold getTiddlerPermanode
    rw [if_pos hV, show describe s r.Ref.val = .ok (some a) from by simp [describe, hdf, ha]]]

theorem resolveRef_valid_absent (k : TiddlyKeep) (s : StoreState) (r : TiddlerRef) (cm : Bool)
    (hTz : r.TextRef = BlobRef.zero) (hV : r.Ref.Valid = true) (hdf : s.describeFails = false)
    (ha : alookup s.nodes r.Ref.val = none) :
    ResolveRef k s r cm = .ok (constructTiddlerRef r.Ref.val none, s) := by
  unfold ResolveRef
  rw [if_neg (by rw [hTz]; simp [BlobRef.Valid, BlobRef.zero])]
  rw [show getTiddlerPermanode k s r cm = .ok (r.Ref.val, none, s) from by
    unfold getTiddlerPermanode
    rw [if_pos hV, show describe s r.Ref.val = .ok none from by simp [describe, hdf, ha]]]

theorem resolveRef_search_found (k : TiddlyKeep) (s : StoreState) (r : TiddlerRef) (cm : Bool)
    (hTz : r.TextRef = BlobRef.zero) (hV : r.Ref.Valid = false) (hT : ¬r.Title = "")
    (hB : r.Bag ≠ "") (hq : s.queryFails = false) (n : String) (a : Attrs)
    (rest : List (String × Attrs))
    (hfil : s.nodes.filter (fun p => p.2.matches
        (.and (.attrEq "title" r.Title) (.attrEq "tiddlerBag" r.Bag))) = (n, a) :: rest) :
    ResolveRef k s r cm = .ok (constructTiddlerRef n (some a), s) := by
  unfold ResolveRef
  rw [if_neg (by rw [hTz]; simp [BlobRef.Valid, BlobRef.zero])]
  rw [show getTiddlerPermanode k s r cm = .ok (n, some a, s) from by
    unfold getTiddlerPermanode
    rw [if_neg (by simp [hV])]
    rw [if_neg hT]
    rw [if_neg (by simp [hB])]
    rw [show bagConstraintOf r = .ok (.attrEq "tiddlerBag" r.Bag) from by
      unfold bagConstraintOf
      rw [if_pos (by simp [hB])]]
    dsimp only []
    rw [show searchTiddlers s (.and (.attrEq "title" r.Title) (.attrEq "tiddlerBag" r.Bag))
        true = .ok ((n, a) :: rest) from by
      unfold searchTiddlers query
      dsimp only []
      rw [if_neg (by simp [hq])]
      simp only [Bool.not_true, Bool.false_eq_true, if_false]
      rw [hfil]]]

theorem createTiddlerPermanode_run (k : TiddlyKeep) (s : StoreState) (r : TiddlerRef)
    (hB : r.Bag ≠ "") (huf : s.uploadFails = false) (hsg : s.signFails = false)
    (hfresh : ("perma-" ++ toString s.nextNode) ∉ s.nodes.map Prod.fst) :
    ∃ (a1 : Attrs) (cl : List Claim), createTiddlerPermanode k s r =
      .ok ("perma-" ++ toString s.nextNode, none,
        { s with nodes := s.nodes ++ [("perma-" ++ toString s.nextNode, a1)],
                 claims := s.claims ++ cl, nextNode := s.nextNode + 1 }) ∧
      a1.title = [r.Title] ∧ a1.tiddlerBag = [r.Bag] ∧ a1.camliContent = [] ∧
      a1.tiddlerMeta = [] ∧ a1.tag = [] := by
  unfold createTiddlerPermanode
  dsimp only []
  simp only [if_neg hB]
  rw [show uploadNewPermanode s = .ok ("perma-" ++ toString s.nextNode,
      { s with
        nodes := s.nodes ++ [("perma-" ++ toString s.nextNode, {})],
        nextNode := s.nextNode + 1 }) from by simp [uploadNewPermanode, huf]]
  dsimp only []
  rw [sign_claim_split
    { s with
      nodes := s.nodes ++ [("perma-" ++ toString s.nextNode, {})],
      nextNode := s.nextNode + 1 }
    (setAttributeClaim ("perma-" ++ toString s.nextNode) "title" r.Title)
    ("perma-" ++ toString s.nextNode) s.nodes [] {} rfl
    (fun h => ClaimOp.noConfusion h) hsg rfl hfresh]
  dsimp only []
  rw [sign_claim_split
    { s with
      nodes := s.nodes ++
        [("perma-" ++ toString s.nextNode,
          claimAttrStep {} (setAttributeClaim ("perma-" ++ toString s.nextNode) "title" r.Title))],
      nextNode := s.nextNode + 1,
      claims := s.claims ++
        [setAttributeClaim ("perma-" ++ toString s.nextNode) "title" r.Title] }
    (setAttributeClaim ("perma-" ++ toString s.nextNode) "tiddlerBag" r.Bag)
    ("perma-" ++ toString s.nextNode) s.nodes []
    (claimAttrStep {} (setAttributeClaim ("perma-" ++ toString s.nextNode) "title" r.Title))
    rfl (fun h => ClaimOp.noConfusion h) hsg rfl hfresh]
  dsimp only []
  split
  · rw [sign_claim_split
      { s with
        nodes := s.nodes ++
          [("perma-" ++ toString s.nextNode,
            claimAttrStep
              (claimAttrStep {}
                (setAttributeClaim ("perma-" ++ toString s.nextNode) "title" r.Title))
              (setAttributeClaim ("perma-" ++ toString s.nextNode) "tiddlerBag" r.Bag))],
        nextNode := s.nextNode + 1,
        claims := s.claims ++
          [setAttributeClaim ("perma-" ++ toString s.nextNode) "title" r.Title] ++
          [setAttributeClaim ("perma-" ++ toString s.nextNode) "tiddlerBag" r.Bag] }
      (setAttributeClaim ("perma-" ++ toString s.nextNode) "camliDefVis" "hide")
      ("perma-" ++ toString s.nextNode) s.nodes []
      (claimAttrStep
        (claimAttrStep {}
          (setAttributeClaim ("perma-" ++ toString s.nextNode) "title" r.Title))
        (setAttributeClaim ("perma-" ++ toString s.nextNode) "tiddlerBag" r.Bag))
      rfl (fun h => ClaimOp.noConfusion h) hsg rfl hfresh]
    dsimp only []
    refine ⟨{ title := [r.Title], tiddlerBag := [r.Bag], camliDefVis := ["hide"] },
      [setAttributeClaim ("perma-" ++ toString s.nextNode) "title" r.Title,
       setAttributeClaim ("perma-" ++ toString s.nextNode) "tiddlerBag" r.Bag,
       setAttributeClaim ("perma-" ++ toString s.nextNode) "camliDefVis" "hide"],
      ?_, rfl, rfl, rfl, rfl, rfl⟩
    rw [List.append_assoc, List.append_assoc]
    rfl
  · refine ⟨{ title := [r.Title], tiddlerBag := [r.Bag] },
      [setAttributeClaim ("perma-" ++ toString s.nextNode) "title" r.Title,
       setAttributeClaim ("perma-" ++ toString s.nextNode) "tiddlerBag" r.Bag],
      ?_, rfl, rfl, rfl, rfl, rfl⟩
    rw [List.append_assoc]
    rfl

theorem put_again_of_resolve (k : TiddlyKeep) (t : Tiddler) (s1 : StoreState)
    (decoded : List Nat) (h_t h_m : BlobRef) (ex : TiddlerRef)
    (hdec : putDecodedText (putPrep t) = .ok decoded)
    (hu : s1.uploadFails = false)
    (hfindF : findBlobByContent s1.blobs (.file decoded) = some h_t.val)
    (hfindM : findBlobByContent s1.blobs (.jsonBytes (putMetaObj (putPrep t))) = some h_m.val)
    (hres : ResolveRef k s1
      { Ref := (putPrep t).Ref,
        Title := (putPrep t).Title,
        Bag := (putPrep t).Bag,
        Recipe := (putPrep t).Recipe } true = .ok (ex, s1))
    (hexT : ex.TextRef = h_t) (hexM : ex.MetaRef = h_m)
    (hexTags : stringsetNew ex.Tags = stringsetNew (putPrep t).Tags) :
    PutTiddler k s1 t = .ok s1 := by
  unfold PutTiddler
  dsimp only []
  rw [hdec]
  dsimp only []
  rw [uploadFile_clean s1 decoded hu, uploadContent_found hfindF]
  dsimp only []
  rw [uploadBlob_clean s1 _ hu, uploadContent_found hfindM]
  dsimp only []
  rw [hres]
  dsimp only []
  rw [if_neg (by simp [hexT])]
  dsimp only []
  rw [if_neg (by simp [hexM])]
  dsimp only []
  unfold updateTags updateTagOps
  rw [if_pos hexTags.symm]
  rfl

theorem put_tail_characterize (k : TiddlyKeep) (t : Tiddler) (s s1 : StoreState)
    (decoded : List Nat) (h_t h_m : BlobRef) (ex : TiddlerRef)
    (s_a s_b s_c : StoreState) (l1 l2 : List (String × Attrs)) (a : Attrs)
    (hdec : putDecodedText (putPrep t) = .ok decoded)
    (hfile : uploadFile s decoded = .ok (h_t, s_a))
    (hblobup : uploadBlob s_a (putMetaObj (putPrep t)) = .ok (h_m, s_b))
    (hres : ResolveRef k s_b
      { Ref := (putPrep t).Ref,
        Title := (putPrep t).Title,
        Bag := (putPrep t).Bag,
        Recipe := (putPrep t).Recipe } true = .ok (ex, s_c))
    (hsgc : s_c.signFails = false)
    (hnodes_c : s_c.nodes = l1 ++ (ex.Ref.val, a) :: l2)
    (hn1 : ex.Ref.val ∉ l1.map Prod.fst)
    (hexT0 : ex.TextRef = BlobRef.parseOrZero (getFirst a.camliContent))
    (hexM0 : ex.MetaRef = BlobRef.parseOrZero (getFirst a.tiddlerMeta))
    (hexTags0 : ex.Tags = a.tag)
    (hPut : PutTiddler k s t = .ok s1) :
    ∃ (a1 : Attrs) (cl : List Claim),
      s1 = { s_c with nodes := l1 ++ (ex.Ref.val, a1) :: l2,
                      claims := s_c.claims ++ cl } ∧
      a1.title = a.title ∧ a1.tiddlerBag = a.tiddlerBag ∧
      BlobRef.parseOrZero (getFirst a1.camliContent) = h_t ∧
      BlobRef.parseOrZero (getFirst a1.tiddlerMeta) = h_m ∧
      stringsetNew a1.tag = stringsetNew (putPrep t).Tags := by
  unfold PutTiddler at hPut
  dsimp only [] at hPut
  rw [hdec] at hPut
  dsimp only [] at hPut
  rw [hfile] at hPut
  dsimp only [] at hPut
  rw [hblobup] at hPut
  dsimp only [] at hPut
  rw [hres] at hPut
  dsimp only [] at hPut
  have hops := updateTagOps_shape ex.Ref.val (stringsetNew ex.Tags)
    (stringsetNew (putPrep t).Tags)
  have hopsnode : ∀ c ∈ updateTagOps ex.Ref.val (stringsetNew ex.Tags)
      (stringsetNew (putPrep t).Tags), c.node = ex.Ref.val ∧ c.op ≠ ClaimOp.delNode :=
    fun c hc => ⟨(hops c hc).1, (hops c hc).2.2⟩
  have hopstag : ∀ c ∈ updateTagOps ex.Ref.val (stringsetNew ex.Tags)
      (stringsetNew (putPrep t).Tags), c.attr = "tag" :=
    fun c hc => (hops c hc).2.1
  by_cases hT : h_t = ex.TextRef
  · rw [if_neg (by simp [hT])] at hPut
    dsimp only [] at hPut
    by_cases hM : h_m = ex.MetaRef
    · rw [if_neg (by simp [hM])] at hPut
      dsimp only [] at hPut
      unfold updateTags at hPut
      rw [applyTagClaims_split ex.Ref.val _ hopsnode s_c l1 l2 a hsgc hnodes_c hn1] at hPut
      refine ⟨_, _, (Except.ok.inj hPut).symm, ?_, ?_, ?_, ?_, ?_⟩
      all_goals rw [foldl_tag_claims _ hopstag]
      all_goals dsimp only []
      all_goals first
        | rfl
        | rw [← hexT0, hT]
        | rw [← hexM0, hM]
        | (rw [hexTags0]; exact tag_reconcile_fold ex.Ref.val a.tag (putPrep t).Tags)
    · rw [if_pos hM] at hPut
      rw [sign_claim_split s_c (setAttributeClaim ex.Ref.val "tiddlerMeta" h_m.str)
        ex.Ref.val l1 l2 a rfl (fun hx => ClaimOp.noConfusion hx) hsgc hnodes_c hn1] at hPut
      dsimp only [] at hPut
      unfold updateTags at hPut
      rw [applyTagClaims_split ex.Ref.val _ hopsnode
        { s_c with
          nodes := l1 ++
            (ex.Ref.val,
              claimAttrStep a (setAttributeClaim ex.Ref.val "tiddlerMeta" h_m.str)) :: l2,
          claims := s_c.claims ++ [setAttributeClaim ex.Ref.val "tiddlerMeta" h_m.str] }
        l1 l2
        (claimAttrStep a (setAttributeClaim ex.Ref.val "tiddlerMeta" h_m.str))
        hsgc rfl hn1] at hPut
      refine ⟨List.foldl claimAttrStep
          (claimAttrStep a (setAttributeClaim ex.Ref.val "tiddlerMeta" h_m.str))
          (updateTagOps ex.Ref.val (stringsetNew ex.Tags) (stringsetNew (putPrep t).Tags)),
        [setAttributeClaim ex.Ref.val "tiddlerMeta" h_m.str] ++
        updateTagOps ex.Ref.val (stringsetNew ex.Tags) (stringsetNew (putPrep t).Tags),
        ?_, ?_, ?_, ?_, ?_, ?_⟩
      · rw [← List.append_assoc]
        exact (Except.ok.inj hPut).symm
      all_goals rw [foldl_tag_claims _ hopstag]
      all_goals try rw [claimAttrStep_set_meta]
      all_goals dsimp only []
      all_goals first
        | rfl
        | rw [← hexT0, hT]
        | rw [← hexM0, hM]
        | (rw [hexTags0]; exact tag_reconcile_fold ex.Ref.val a.tag (putPrep t).Tags)
  · rw [if_pos hT] at hPut
    rw [sign_claim_split s_c (setAttributeClaim ex.Ref.val "camliContent" h_t.str)
      ex.Ref.val l1 l2 a rfl (fun hx => ClaimOp.noConfusion hx) hsgc hnodes_c hn1] at hPut
    dsimp only [] at hPut
    by_cases hM : h_m = ex.MetaRef
    · rw [if_neg (by simp [hM])] at hPut
      dsimp only [] at hPut
      unfold updateTags at hPut
      rw [applyTagClaims_split ex.Ref.val _ hopsnode
        { s_c with
          nodes := l1 ++
            (ex.Ref.val,
              claimAttrStep a (setAttributeClaim ex.Ref.val "camliContent" h_t.str)) :: l2,
          claims := s_c.claims ++ [setAttributeClaim ex.Ref.val "camliContent" h_t.str] }
        l1 l2
        (claimAttrStep a (setAttributeClaim ex.Ref.val "camliContent" h_t.str))
        hsgc rfl hn1] at hPut
      refine ⟨List.foldl claimAttrStep
          (claimAttrStep a (setAttributeClaim ex.Ref.val "camliContent" h_t.str))
          (updateTagOps ex.Ref.val (stringsetNew ex.Tags) (stringsetNew (putPrep t).Tags)),
        [setAttributeClaim ex.Ref.val "camliContent" h_t.str] ++
        updateTagOps ex.Ref.val (stringsetNew ex.Tags) (stringsetNew (putPrep t).Tags),
        ?_, ?_, ?_, ?_, ?_, ?_⟩
      · rw [← List.append_assoc]
        exact (Except.ok.inj hPut).symm
      all_goals rw [foldl_tag_claims _ hopstag]
      all_goals try rw [claimAttrStep_set_content]
      all_goals dsimp only []
      all_goals first
        | rfl
        | rw [← hexT0, hT]
        | rw [← hexM0, hM]
        | (rw [hexTags0]; exact tag_reconcile_fold ex.Ref.val a.tag (putPrep t).Tags)
    · rw [if_pos hM] at hPut
      rw [sign_claim_split
        { s_c with
          nodes := l1 ++
            (ex.Ref.val,
              claimAttrStep a (setAttributeClaim ex.Ref.val "camliContent" h_t.str)) :: l2,
          claims := s_c.claims ++ [setAttributeClaim ex.Ref.val "camliContent" h_t.str] }
        (setAttributeClaim ex.Ref.val "tiddlerMeta" h_m.str)
        ex.Ref.val l1 l2
        (claimAttrStep a (setAttributeClaim ex.Ref.val "camliContent" h_t.str))
        rfl (fun hx => ClaimOp.noConfusion hx) hsgc rfl hn1] at hPut
      dsimp only [] at hPut
      unfold updateTags at hPut
      rw [applyTagClaims_split ex.Ref.val _ hopsnode
        { s_c with
          nodes := l1 ++
            (ex.Ref.val,
              claimAttrStep
                (claimAttrStep a (setAttributeClaim ex.Ref.val "camliContent" h_t.str))
                (setAttributeClaim ex.Ref.val "tiddlerMeta" h_m.str)) :: l2,
          claims := s_c.claims ++ [setAttributeClaim ex.Ref.val "camliContent" h_t.str] ++
            [setAttributeClaim ex.Ref.val "tiddlerMeta" h_m.str] }
        l1 l2
        (claimAttrStep (claimAttrStep a (setAttributeClaim ex.Ref.val "camliContent" h_t.str))
          (setAttributeClaim ex.Ref.val "tiddlerMeta" h_m.str))
        hsgc rfl hn1] at hPut
      refine ⟨List.foldl claimAttrStep
          (claimAttrStep
            (claimAttrStep a (setAttributeClaim ex.Ref.val "camliContent" h_t.str))
            (setAttributeClaim ex.Ref.val "tiddlerMeta" h_m.str))
          (updateTagOps ex.Ref.val (stringsetNew ex.Tags) (stringsetNew (putPrep t).Tags)),
        [setAttributeClaim ex.Ref.val "camliContent" h_t.str] ++
        ([setAttributeClaim ex.Ref.val "tiddlerMeta" h_m.str] ++
          updateTagOps ex.Ref.val (stringsetNew ex.Tags) (stringsetNew (putPrep t).Tags)),
        ?_, ?_, ?_, ?_, ?_, ?_⟩
      · rw [← List.append_assoc, ← List.append_assoc]
        exact (Except.ok.inj hPut).symm
      all_goals rw [foldl_tag_claims _ hopstag]
      all_goals try rw [claimAttrStep_set_meta]
      all_goals try rw [claimAttrStep_set_content]
      all_goals dsimp only []
      all_goals first
        | rfl
        | rw [← hexT0, hT]
        | rw [← hexM0, hM]
        | (rw [hexTags0]; exact tag_reconcile_fold ex.Ref.val a.tag (putPrep t).Tags)

theorem put_tail_characterize_absent (k : TiddlyKeep) (t : Tiddler) (s s1 : StoreState)
    (decoded : List Nat) (h_t h_m : BlobRef) (ex : TiddlerRef)
    (s_a s_b s_c : StoreState)
    (hdec : putDecodedText (putPrep t) = .ok decoded)
    (hfile : uploadFile s decoded = .ok (h_t, s_a))
    (hblobup : uploadBlob s_a (putMetaObj (putPrep t)) = .ok (h_m, s_b))
    (hres : ResolveRef k s_b
      { Ref := (putPrep t).Ref,
        Title := (putPrep t).Title,
        Bag := (putPrep t).Bag,
        Recipe := (putPrep t).Recipe } true = .ok (ex, s_c))
    (hsgc : s_c.signFails = false)
    (hnabs : ex.Ref.val ∉ s_c.nodes.map Prod.fst)
    (hexT0 : ex.TextRef = BlobRef.zero)
    (hexM0 : ex.MetaRef = BlobRef.zero)
    (hexTags0 : ex.Tags = [])
    (htne : h_t.val ≠ "") (hmne : h_m.val ≠ "")
    (hPut : PutTiddler k s t = .ok s1) :
    ∃ (a1 : Attrs) (cl : List Claim),
      s1 = { s_c with nodes := s_c.nodes ++ [(ex.Ref.val, a1)],
                      claims := s_c.claims ++ cl } ∧
      BlobRef.parseOrZero (getFirst a1.camliContent) = h_t ∧
      BlobRef.parseOrZero (getFirst a1.tiddlerMeta) = h_m ∧
      stringsetNew a1.tag = stringsetNew (putPrep t).Tags := by
  unfold PutTiddler at hPut
  dsimp only [] at hPut
  rw [hdec] at hPut
  dsimp only [] at hPut
  rw [hfile] at hPut
  dsimp only [] at hPut
  rw [hblobup] at hPut
  dsimp only [] at hPut
  rw [hres] at hPut
  dsimp only [] at hPut
  have hops := updateTagOps_shape ex.Ref.val (stringsetNew ex.Tags)
    (stringsetNew (putPrep t).Tags)
  have hopsnode : ∀ c ∈ updateTagOps ex.Ref.val (stringsetNew ex.Tags)
      (stringsetNew (putPrep t).Tags), c.node = ex.Ref.val ∧ c.op ≠ ClaimOp.delNode :=
    fun c hc => ⟨(hops c hc).1, (hops c hc).2.2⟩
  have hopstag : ∀ c ∈ updateTagOps ex.Ref.val (stringsetNew ex.Tags)
      (stringsetNew (putPrep t).Tags), c.attr = "tag" :=
    fun c hc => (hops c hc).2.1
  rw [if_pos (show h_t ≠ ex.TextRef from fun he =>
    htne (congrArg BlobRef.val (he.trans hexT0)))] at hPut
  rw [sign_claim_absent s_c (setAttributeClaim ex.Ref.val "camliContent" h_t.str)
    ex.Ref.val rfl (fun hx => ClaimOp.noConfusion hx) hsgc hnabs] at hPut
  dsimp only [] at hPut
  rw [if_pos (show h_m ≠ ex.MetaRef from fun he =>
    hmne (congrArg BlobRef.val (he.trans hexM0)))] at hPut
  rw [sign_claim_split
    { s_c with
      nodes := s_c.nodes ++
        [(ex.Ref.val,
          claimAttrStep {} (setAttributeClaim ex.Ref.val "camliContent" h_t.str))],
      claims := s_c.claims ++ [setAttributeClaim ex.Ref.val "camliContent" h_t.str] }
    (setAttributeClaim ex.Ref.val "tiddlerMeta" h_m.str)
    ex.Ref.val s_c.nodes []
    (claimAttrStep {} (setAttributeClaim ex.Ref.val "camliContent" h_t.str))
    rfl (fun hx => ClaimOp.noConfusion hx) hsgc rfl hnabs] at hPut
  dsimp only [] at hPut
  unfold updateTags at hPut
  rw [applyTagClaims_split ex.Ref.val _ hopsnode
    { s_c with
      nodes := s_c.nodes ++
        [(ex.Ref.val,
          claimAttrStep
            (claimAttrStep {} (setAttributeClaim ex.Ref.val "camliContent" h_t.str))
            (setAttributeClaim ex.Ref.val "tiddlerMeta" h_m.str))],
      claims := s_c.claims ++ [setAttributeClaim ex.Ref.val "camliContent" h_t.str] ++
        [setAttributeClaim ex.Ref.val "tiddlerMeta" h_m.str] }
    s_c.nodes []
    (claimAttrStep
      (claimAttrStep {} (setAttributeClaim ex.Ref.val "camliContent" h_t.str))
      (setAttributeClaim ex.Ref.val "tiddlerMeta" h_m.str))
    hsgc rfl hnabs] at hPut
  refine ⟨List.foldl claimAttrStep
      (claimAttrStep
        (claimAttrStep {} (setAttributeClaim ex.Ref.val "camliContent" h_t.str))
        (setAttributeClaim ex.Ref.val "tiddlerMeta" h_m.str))
      (updateTagOps ex.Ref.val (stringsetNew ex.Tags) (stringsetNew (putPrep t).Tags)),
    [setAttributeClaim ex.Ref.val "camliContent" h_t.str] ++
    ([setAttributeClaim ex.Ref.val "tiddlerMeta" h_m.str] ++
      updateTagOps ex.Ref.val (stringsetNew ex.Tags) (stringsetNew (putPrep t).Tags)),
    ?_, ?_, ?_, ?_⟩
  · rw [← List.append_assoc, ← List.append_assoc]
    exact (Except.ok.inj hPut).symm
  all_goals rw [foldl_tag_claims _ hopstag]
  all_goals first
    | rfl
    | (rw [hexTags0]; exact tag_reconcile_fold ex.Ref.val [] (putPrep t).Tags)

theorem uploadContent_empty_key {s : StoreState} {d : BlobData} {r : BlobRef} {s' : StoreState}
    (h : uploadContent s d = (r, s')) (hb : "" ∉ s.blobs.map Prod.fst) :
    "" ∉ s'.blobs.map Prod.fst := by
  unfold uploadContent at h
  cases hf : findBlobByContent s.blobs d with
  | some h0 =>
    rw [hf] at h
    obtain ⟨_, hs⟩ := Prod.mk.inj h
    subst hs
    exact hb
  | none =>
    rw [hf] at h
    obtain ⟨_, hs⟩ := Prod.mk.inj h
    subst hs
    simp only [List.map_append, List.mem_append, List.map_cons, List.map_nil,
      List.mem_singleton, not_or]
    exact ⟨hb, fun he => cas_ne_empty _ he.symm⟩

theorem not_mem_of_alookup_none {α : Type} {l : List (String × α)} {n : String}
    (h : alookup l n = none) : n ∉ l.map Prod.fst := by
  induction l with
  | nil => simp
  | cons kv rest ih =>
    obtain ⟨k, v⟩ := kv
    unfold alookup at h
    by_cases hk : k = n
    · rw [if_pos hk] at h
      exact absurd h (by simp)
    · rw [if_neg hk] at h
      simp only [List.map_cons, List.mem_cons, not_or]
      exact ⟨fun he => hk he.symm, ih h⟩

theorem matches_title_bag (a : Attrs) (ti bg : String) :
    a.matches (.and (.attrEq "title" ti) (.attrEq "tiddlerBag" bg)) =
      (a.title.contains ti && a.tiddlerBag.contains bg) := rfl

theorem putPrep_bag_ne (t : Tiddler) : (putPrep t).Bag ≠ "" := by
  unfold putPrep
  split
  · exact fun he => by simp at he
  · rename_i hb
    exact hb

/-- Claim C3: the store appends a `camliContent` claim only when the freshly
uploaded body handle differs from the resolved node's current `TextRef`, and a
`tiddlerMeta` claim only when the uploaded metadata handle differs from the
node's current `MetaRef` (content addressing dedups identical bytes);
consequently, putting the identical tiddler a second time into the state
produced by a successful put over a healthy well-formed store appends no
claims at all and returns that state unchanged. -/
theorem claim3_put_idempotent (k : TiddlyKeep) (t : Tiddler) (s s1 : StoreState)
    (hclean : s.clean) (hwf : s.wf) (h : PutTiddler k s t = .ok s1) :
    PutTiddler k s1 t = .ok s1 := by
  obtain ⟨hq, hdf, hu, hsg⟩ := hclean
  obtain ⟨hnd, hfresh, hblob⟩ := hwf
  obtain ⟨decoded, hdec⟩ : ∃ d, putDecodedText (putPrep t) = .ok d := by
    cases hdx : putDecodedText (putPrep t) with
    | ok d => exact ⟨d, rfl⟩
    | error e =>
      unfold PutTiddler at h
      dsimp only [] at h
      rw [hdx] at h
      dsimp only [] at h
      exact Except.noConfusion h
  obtain ⟨h_t, s_a, hupF⟩ : ∃ r sa, uploadContent s (.file decoded) = (r, sa) := ⟨_, _, rfl⟩
  have hfile : uploadFile s decoded = .ok (h_t, s_a) := by
    rw [uploadFile_clean s decoded hu, hupF]
  obtain ⟨hbtl_a, hfindF_a, htne, hnodes_a, hclaims_a, hnn_a, hq_a, hd_a, hu_a, hs_a⟩ :=
    uploadContent_spec hupF hblob
  have hblob_a : "" ∉ s_a.blobs.map Prod.fst := uploadContent_empty_key hupF hblob
  obtain ⟨h_m, s_b, hupB⟩ :
      ∃ r sb, uploadContent s_a (.jsonBytes (putMetaObj (putPrep t))) = (r, sb) :=
    ⟨_, _, rfl⟩
  have hblobup : uploadBlob s_a (putMetaObj (putPrep t)) = .ok (h_m, s_b) := by
    rw [uploadBlob_clean s_a _ (by rw [hu_a]; exact hu), hupB]
  obtain ⟨hbtl_b, hfindB_b, hmne, hnodes_b, hclaims_b, hnn_b, hq_b, hd_b, hu_b, hs_b⟩ :=
    uploadContent_spec hupB hblob_a
  have hq_b' : s_b.queryFails = false := by rw [hq_b, hq_a]; exact hq
  have hd_b' : s_b.describeFails = false := by rw [hd_b, hd_a]; exact hdf
  have hu_b' : s_b.uploadFails = false := by rw [hu_b, hu_a]; exact hu
  have hs_b' : s_b.signFails = false := by rw [hs_b, hs_a]; exact hsg
  have hnodes_b' : s_b.nodes = s.nodes := by rw [hnodes_b, hnodes_a]
  have hfindF_b : findBlobByContent s_b.blobs (.file decoded) = some h_t.val := by
    obtain ⟨tl, htl⟩ := hbtl_b
    rw [htl]
    exact findBlobByContent_mono hfindF_a tl
  by_cases hV : (putPrep t).Ref.Valid = true
  · cases hd0 : alookup s_b.nodes (putPrep t).Ref.val with
    | some a =>
      obtain ⟨l1, l2, hsplit, hnl1⟩ := alookup_eq_some_split s_b.nodes _ a hd0
      obtain ⟨a1, cl, hs1, ha1t, ha1b, ha1c, ha1m, ha1g⟩ :=
        put_tail_characterize k t s s1 decoded h_t h_m
          (constructTiddlerRef (putPrep t).Ref.val (some a)) s_a s_b s_b l1 l2 a
          hdec hfile hblobup
          (resolveRef_valid_found k s_b
            { Ref := (putPrep t).Ref,
              Title := (putPrep t).Title,
              Bag := (putPrep t).Bag,
              Recipe := (putPrep t).Recipe } true rfl hV hd_b' a hd0)
          hs_b' hsplit hnl1 rfl rfl rfl h
      subst hs1
      exact put_again_of_resolve k t _ decoded h_t h_m
        (constructTiddlerRef (putPrep t).Ref.val (some a1)) hdec (by exact hu_b')
        (by exact hfindF_b) (by exact hfindB_b)
        (by exact resolveRef_valid_found k _
              { Ref := (putPrep t).Ref,
                Title := (putPrep t).Title,
                Bag := (putPrep t).Bag,
                Recipe := (putPrep t).Recipe } true rfl hV (by exact hd_b') a1
              (by exact alookup_first l1 l2 _ a1 hnl1))
        ha1c ha1m ha1g
    | none =>
      obtain ⟨a1, cl, hs1, ha1c, ha1m, ha1g⟩ :=
        put_tail_characterize_absent k t s s1 decoded h_t h_m
          (constructTiddlerRef (putPrep t).Ref.val none) s_a s_b s_b
          hdec hfile hblobup
          (resolveRef_valid_absent k s_b
            { Ref := (putPrep t).Ref,
              Title := (putPrep t).Title,
              Bag := (putPrep t).Bag,
              Recipe := (putPrep t).Recipe } true rfl hV hd_b' hd0)
          hs_b' (not_mem_of_alookup_none hd0) rfl rfl rfl htne hmne h
      subst hs1
      exact put_again_of_resolve k t _ decoded h_t h_m
        (constructTiddlerRef (putPrep t).Ref.val (some a1)) hdec (by exact hu_b')
        (by exact hfindF_b) (by exact hfindB_b)
        (by exact resolveRef_valid_found k _
              { Ref := (putPrep t).Ref,
                Title := (putPrep t).Title,
                Bag := (putPrep t).Bag,
                Recipe := (putPrep t).Recipe } true rfl hV (by exact hd_b') a1
              (by exact alookup_first s_b.nodes [] _ a1 (not_mem_of_alookup_none hd0)))
        ha1c ha1m ha1g
  · have hVf : (putPrep t).Ref.Valid = false := by simpa using hV
    by_cases hTe : (putPrep t).Title = ""
    · exfalso
      have hrerr : ResolveRef k s_b
          { Ref := (putPrep t).Ref,
            Title := (putPrep t).Title,
            Bag := (putPrep t).Bag,
            Recipe := (putPrep t).Recipe } true = .error .missingTitle := by
        unfold ResolveRef
        rw [if_neg (by simp [BlobRef.Valid, BlobRef.zero])]
        rw [show getTiddlerPermanode k s_b
            { Ref := (putPrep t).Ref,
              Title := (putPrep t).Title,
              Bag := (putPrep t).Bag,
              Recipe := (putPrep t).Recipe } true = .error .missingTitle from by
          unfold getTiddlerPermanode
          rw [if_neg (by simp [hVf]), if_pos hTe]]
      unfold PutTiddler at h
      dsimp only [] at h
      rw [hdec] at h
      dsimp only [] at h
      rw [hfile] at h
      dsimp only [] at h
      rw [hblobup] at h
      dsimp only [] at h
      rw [hrerr] at h
      dsimp only [] at h
      exact Except.noConfusion h
    · cases hfil : s_b.nodes.filter (fun p => p.2.matches
          (.and (.attrEq "title" (putPrep t).Title)
            (.attrEq "tiddlerBag" (putPrep t).Bag))) with
      | cons b rest =>
        obtain ⟨nb, ab⟩ := b
        obtain ⟨l1, l2, hsplit, hl1no, hbm, hl2f⟩ := filter_split _ _ _ _ hfil
        have hnd_b : (s_b.nodes.map Prod.fst).Nodup := by
          rw [hnodes_b']
          exact hnd
        have hnl1 : nb ∉ l1.map Prod.fst := by
          rw [hsplit, List.map_append, List.map_cons] at hnd_b
          exact fun hm =>
            List.disjoint_of_nodup_append hnd_b hm (List.mem_cons_self _ _)
        obtain ⟨a1, cl, hs1, ha1t, ha1b, ha1c, ha1m, ha1g⟩ :=
          put_tail_characterize k t s s1 decoded h_t h_m
            (constructTiddlerRef nb (some ab)) s_a s_b s_b l1 l2 ab
            hdec hfile hblobup
            (resolveRef_search_found k s_b
              { Ref := (putPrep t).Ref,
                Title := (putPrep t).Title,
                Bag := (putPrep t).Bag,
                Recipe := (putPrep t).Recipe } true rfl hVf hTe (putPrep_bag_ne t)
              hq_b' nb ab rest hfil)
            hs_b' hsplit hnl1 rfl rfl rfl h
        have hpred1 : a1.matches (.and (.attrEq "title" (putPrep t).Title)
            (.attrEq "tiddlerBag" (putPrep t).Bag)) = true := by
          rw [matches_title_bag, ha1t, ha1b, ← matches_title_bag]
          simpa using hbm
        subst hs1
        exact put_again_of_resolve k t _ decoded h_t h_m
          (constructTiddlerRef nb (some a1)) hdec (by exact hu_b')
          (by exact hfindF_b) (by exact hfindB_b)
          (by exact resolveRef_search_found k _
                { Ref := (putPrep t).Ref,
                  Title := (putPrep t).Title,
                  Bag := (putPrep t).Bag,
                  Recipe := (putPrep t).Recipe } true rfl hVf hTe (putPrep_bag_ne t)
                (by exact hq_b') nb a1 (l2.filter _)
                (by
                  rw [List.filter_append]
                  rw [show l1.filter (fun p => p.2.matches
                      (.and (.attrEq "title" (putPrep t).Title)
                        (.attrEq "tiddlerBag" (putPrep t).Bag))) = [] from
                    List.filter_eq_nil_iff.mpr (fun x hx => by simp [hl1no x hx])]
                  rw [List.nil_append, List.filter_cons, if_pos hpred1]
                  rfl))
          ha1c ha1m ha1g
      | nil =>
        have hfresh_b : ("perma-" ++ toString s_b.nextNode) ∉ s_b.nodes.map Prod.fst := by
          rw [hnodes_b', hnn_b, hnn_a]
          exact hfresh
        obtain ⟨ac, clc, hcreate, hct, hcb, hcc, hcm, hcg⟩ :=
          createTiddlerPermanode_run k s_b
            { Ref := (putPrep t).Ref,
              Title := (putPrep t).Title,
              Bag := (putPrep t).Bag,
              Recipe := (putPrep t).Recipe }
            (putPrep_bag_ne t) hu_b' hs_b' hfresh_b
        have hres : ResolveRef k s_b
            { Ref := (putPrep t).Ref,
              Title := (putPrep t).Title,
              Bag := (putPrep t).Bag,
              Recipe := (putPrep t).Recipe } true =
            .ok (constructTiddlerRef ("perma-" ++ toString s_b.nextNode) none,
              { s_b with nodes := s_b.nodes ++ [("perma-" ++ toString s_b.nextNode, ac)],
                         claims := s_b.claims ++ clc, nextNode := s_b.nextNode + 1 }) := by
          unfold ResolveRef
          rw [if_neg (by simp [BlobRef.Valid, BlobRef.zero])]
          rw [show getTiddlerPermanode k s_b
              { Ref := (putPrep t).Ref,
                Title := (putPrep t).Title,
                Bag := (putPrep t).Bag,
                Recipe := (putPrep t).Recipe } true =
              .ok ("perma-" ++ toString s_b.nextNode, none,
                { s_b with nodes := s_b.nodes ++ [("perma-" ++ toString s_b.nextNode, ac)],
                           claims := s_b.claims ++ clc, nextNode := s_b.nextNode + 1 }) from by
            unfold getTiddlerPermanode
            rw [if_neg (by simp [hVf]), if_neg hTe,
              if_neg (by simp [putPrep_bag_ne t])]
            rw [show bagConstraintOf
                { Ref := (putPrep t).Ref,
                  Title := (putPrep t).Title,
                  Bag := (putPrep t).Bag,
                  Recipe := (putPrep t).Recipe } =
                .ok (.attrEq "tiddlerBag" (putPrep t).Bag) from by
              unfold bagConstraintOf
              rw [if_pos (by simp [putPrep_bag_ne t])]]
            dsimp only []
            rw [show searchTiddlers s_b
                (.and (.attrEq "title" (putPrep t).Title)
                  (.attrEq "tiddlerBag" (putPrep t).Bag)) true = .ok [] from by
              unfold searchTiddlers query
              dsimp only []
              rw [if_neg (by simp [hq_b'])]
              simp only [Bool.not_true, Bool.false_eq_true, if_false]
              rw [hfil]]
            dsimp only []
            simp only [Bool.not_true, Bool.false_eq_true, if_false]
            exact hcreate]
        obtain ⟨a1, cl, hs1, ha1t, ha1b, ha1c, ha1m, ha1g⟩ :=
          put_tail_characterize k t s s1 decoded h_t h_m
            (constructTiddlerRef ("perma-" ++ toString s_b.nextNode) none) s_a s_b
            { s_b with nodes := s_b.nodes ++ [("perma-" ++ toString s_b.nextNode, ac)],
                       claims := s_b.claims ++ clc, nextNode := s_b.nextNode + 1 }
            s_b.nodes [] ac
            hdec hfile hblobup hres hs_b' rfl hfresh_b
            (by rw [hcc]; rfl) (by rw [hcm]; rfl) hcg.symm h
        have hpred1 : a1.matches (.and (.attrEq "title" (putPrep t).Title)
            (.attrEq "tiddlerBag" (putPrep t).Bag)) = true := by
          rw [matches_title_bag, ha1t, ha1b, hct, hcb]
          simp
        subst hs1
        exact put_again_of_resolve k t _ decoded h_t h_m
          (constructTiddlerRef ("perma-" ++ toString s_b.nextNode) (some a1)) hdec
          (by exact hu_b')
          (by exact hfindF_b) (by exact hfindB_b)
          (by exact resolveRef_search_found k _
                { Ref := (putPrep t).Ref,
                  Title := (putPrep t).Title,
                  Bag := (putPrep t).Bag,
                  Recipe := (putPrep t).Recipe } true rfl hVf hTe (putPrep_bag_ne t)
                (by exact hq_b') ("perma-" ++ toString s_b.nextNode) a1 []
                (by
                  rw [List.filter_append, hfil, List.nil_append,
                    List.filter_cons, if_pos hpred1]
                  rfl))
          ha1c ha1m ha1g

/-- Witness for C3: putting the concrete fixture twice into the empty store
hits the fixed point — the second put returns the once-put state unchanged. -/
theorem claim3_witness :
    PutTiddler {} {} putFixture = .ok putOnceState ∧
    PutTiddler {} putOnceState putFixture = .ok putOnceState :=
  ⟨by decide, claim3_put_idempotent {} putFixture {} putOnceState
    ⟨rfl, rfl, rfl, rfl⟩ ⟨by decide, by decide, by decide⟩ (by decide)⟩
